import Mathlib

/-!
# Position aggregation engine of the trading-journal repository

A shallow embedding of `src/services/positionAggregator.ts` (the Position
Builder, its weighted-average helpers, and the Live Reconciler) together
with the pieces of `src/services/supabase.ts` and `src/services/lighterApi.ts`
it reads.  JavaScript numbers are idealised as rationals (`ℚ`); timestamps as
integers (milliseconds, `new Date(s).getTime()`); JS `undefined` as `none`.
-/

namespace TradingJournal

/-- `'BUY' | 'SELL'` — the `side` field of a `DBTrade`. -/
inductive OrderSide where
  | BUY
  | SELL
deriving DecidableEq, Repr

/-- `'long' | 'short'` — the `type` field of trades and fills. -/
inductive TradeType where
  | long
  | short
deriving DecidableEq, Repr

/-- `'open' | 'closed'` — the status of trades and of positions.
`open` is a Lean keyword, hence the constructor name `open_`. -/
inductive Status where
  | open_
  | closed
deriving DecidableEq, Repr, Inhabited

/-- `'LONG' | 'SHORT'` — the side of a position. -/
inductive PSide where
  | LONG
  | SHORT
deriving DecidableEq, Repr, Inhabited

/-- The string a position side compares equal to in JS (`'LONG'`/`'SHORT'`). -/
def sideStr : PSide → String
  | PSide.LONG => "LONG"
  | PSide.SHORT => "SHORT"

/-- `DBTrade` (supabase.ts), restricted to the fields `positionAggregator.ts`
reads: `id`, `symbol`, `market_id`, `type`, `status`, `side`, `entry_price`,
`quantity`, `entry_date`, `exchange`.  The unread columns (`trade_id`,
`usd_amount`, `exit_price`, fees, notes, …) are omitted.  `entry_date` is the
parsed timestamp `new Date(trade.entry_date).getTime()`. -/
structure DBTrade where
  id : String
  symbol : String
  market_id : Nat
  type : TradeType
  status : Status
  side : OrderSide
  entry_price : ℚ
  quantity : ℚ
  entry_date : Int
  exchange : String
deriving DecidableEq, Repr

/-- The app-level `Trade` record used for the `fills` array of a position
(types.ts), restricted to the fields `positionAggregator.ts` writes. -/
structure Trade where
  id : String
  symbol : String
  type : TradeType
  status : Status
  entryPrice : ℚ
  quantity : ℚ
  entryDate : Int
  exchange : String
deriving DecidableEq, Repr

/-- `DBPosition` (supabase.ts), restricted to the fields the aggregator
reads for metadata matching: `id`, `symbol`, `side`, `status`, `opened_at`,
`journal`, `category`. -/
structure DBPosition where
  id : String
  symbol : String
  side : PSide
  status : Status
  opened_at : Option Int
  journal : Option String
  category : Option String
deriving DecidableEq, Repr

/-- The app-level `Position` record (types.ts), with every field
`positionAggregator.ts` writes.  Optional fields are `Option`-valued
(JS `undefined` = `none`). -/
structure Position where
  id : String
  symbol : String
  marketId : Nat
  side : PSide
  status : Status
  totalQuantity : ℚ
  avgEntryPrice : ℚ
  avgExitPrice : Option ℚ
  totalEntryCost : ℚ
  totalExitRevenue : ℚ
  realizedPnl : ℚ
  realizedPnlPercent : Option ℚ
  openedAt : Int
  closedAt : Option Int
  fillsCount : Nat
  exchange : String
  fills : List Trade
  journal : Option String
  category : Option String
  positionSizeUsd : Option ℚ
  currentPrice : Option ℚ
  liquidationPrice : Option ℚ
  margin : Option ℚ
  leverage : Option ℚ
  funding : Option ℚ
  unrealizedPnl : Option ℚ
  unrealizedPnlPercent : Option ℚ
deriving DecidableEq, Repr, Inhabited

/-- JS `(trade.exchange as ...) || 'Lighter'`: the empty string is falsy. -/
def jsExchange (s : String) : String :=
  if s = "" then "Lighter" else s

/-- JS `existingPos.journal || undefined`: the empty string is falsy. -/
def jsStrOrNone : Option String → Option String
  | some "" => none
  | x => x

/-- The epsilon `0.0001` used by the close check. -/
def epsilon : ℚ := 1 / 10000

/-- Conversion of a `DBTrade` into the `Trade` fill record pushed onto
`fills` (lines 161–170 of positionAggregator.ts).  `trade.type || 'long'`
and `trade.status || 'closed'` are identities here because the model has no
falsy inhabitants of the corresponding union types. -/
def toFill (t : DBTrade) : Trade :=
  { id := t.id
    symbol := t.symbol
    type := t.type
    status := t.status
    entryPrice := t.entry_price
    quantity := t.quantity
    entryDate := t.entry_date
    exchange := jsExchange t.exchange }

/-- `Σ price·quantity` over a fill list (the `reduce` accumulating
`f.entryPrice * f.quantity`). -/
def sumValue (fs : List Trade) : ℚ :=
  (fs.map (fun f => f.entryPrice * f.quantity)).sum

/-- `Σ quantity` over a fill list. -/
def sumQty (fs : List Trade) : ℚ :=
  (fs.map (fun f => f.quantity)).sum

/-- The filter of `calculateWeightedAvgEntry`: fills whose own directional
`type` matches the position side. -/
def entryFillsOf (fills : List Trade) (side : PSide) : List Trade :=
  fills.filter (fun f =>
    decide ((side = PSide.LONG ∧ f.type = TradeType.long) ∨
            (side = PSide.SHORT ∧ f.type = TradeType.short)))

/-- The filter of `calculateWeightedAvgExit`: fills whose `type` opposes the
position side. -/
def exitFillsOf (fills : List Trade) (side : PSide) : List Trade :=
  fills.filter (fun f =>
    decide ((side = PSide.LONG ∧ f.type = TradeType.short) ∨
            (side = PSide.SHORT ∧ f.type = TradeType.long)))

/-- `fills[0]?.entryPrice || 0` (both `undefined` and `0` collapse to `0`). -/
def jsHeadPrice (fills : List Trade) : ℚ :=
  ((fills.head?).map (fun f => f.entryPrice)).getD 0

/-- `calculateWeightedAvgEntry` (lines 281–302).  The fallback for an empty
type-matching filter keeps the even-indexed fills (the source computes the
same even-index filter in both arms of its ternary). -/
def calculateWeightedAvgEntry (fills : List Trade) (side : PSide) : ℚ :=
  let entryFills := entryFillsOf fills side
  if entryFills.length = 0 then
    let allEntries := (fills.enum.filter (fun p => p.1 % 2 = 0)).map Prod.snd
    if allEntries.length = 0 then jsHeadPrice fills
    else
      let totalValue := sumValue allEntries
      let totalQty := sumQty allEntries
      if totalQty > 0 then totalValue / totalQty else 0
  else
    let totalValue := sumValue entryFills
    let totalQty := sumQty entryFills
    if totalQty > 0 then totalValue / totalQty else 0

/-- `calculateWeightedAvgExit` (lines 307–318): `undefined` when no fill
opposes the side, and also when the opposing quantity is not positive. -/
def calculateWeightedAvgExit (fills : List Trade) (side : PSide) : Option ℚ :=
  let exitFills := exitFillsOf fills side
  if exitFills.length = 0 then none
  else
    let totalValue := sumValue exitFills
    let totalQty := sumQty exitFills
    if totalQty > 0 then some (totalValue / totalQty) else none

/-- The `Partial<Position>` object created when a fill arrives on a flat
symbol (lines 136–151): only the fields that are later read. -/
structure CurrentPos where
  id : String
  marketId : Nat
  side : PSide
  openedAt : Int
  exchange : String
deriving DecidableEq, Repr

/-- The mutable locals of the replay loop of `calculatePositionsForSymbol`:
`currentPosition`, `runningQuantity`, `totalEntryCost`, `totalExitRevenue`,
`realizedPnl`, `fillsCount`, `fills`. -/
structure ReplayState where
  current : Option CurrentPos
  runningQuantity : ℚ
  totalEntryCost : ℚ
  totalExitRevenue : ℚ
  realizedPnl : ℚ
  fillsCount : Nat
  fills : List Trade
deriving DecidableEq, Repr

/-- The locals before the first fill. -/
def initState : ReplayState :=
  { current := none, runningQuantity := 0, totalEntryCost := 0,
    totalExitRevenue := 0, realizedPnl := 0, fillsCount := 0, fills := [] }

/-- Ghost instrumentation recorded for one loop iteration: the emitted
position (if the close branch ran), the `runningQuantity` value inspected by
the close check, and — when the reducing branch ran — the `runningQuantity`
that was the denominator of `totalEntryCost / runningQuantity`. -/
structure StepInfo where
  emitted : Option Position
  checkQty : ℚ
  reducingQty : Option ℚ
deriving DecidableEq, Repr

/-- The fresh `currentPosition` object for an opening fill (lines 136–151). -/
def freshFor (symbol : String) (t : DBTrade) : CurrentPos :=
  { id := "pos-" ++ symbol ++ "-" ++ toString t.entry_date
    marketId := t.market_id
    side := if t.side = OrderSide.BUY then PSide.LONG else PSide.SHORT
    openedAt := t.entry_date
    exchange := jsExchange t.exchange }

/-- `p.opened_at && Math.abs(new Date(p.opened_at).getTime() - openedAt) < 1000`. -/
def matchOpenedAt : Option Int → Int → Bool
  | some ta, tb => (ta - tb).natAbs < 1000
  | none, _ => false

/-- The closed `Position` object literal of lines 201–219, before the
metadata carry-over. -/
def mkClosedBase (symbol : String) (cp : CurrentPos)
    (cost rev pnl : ℚ) (cnt : Nat) (fl : List Trade) (t : DBTrade) : Position :=
  { id := cp.id
    symbol := symbol
    marketId := cp.marketId
    side := cp.side
    status := Status.closed
    totalQuantity := 0
    avgEntryPrice := calculateWeightedAvgEntry fl cp.side
    avgExitPrice := calculateWeightedAvgExit fl cp.side
    totalEntryCost := cost
    totalExitRevenue := rev
    realizedPnl := pnl
    realizedPnlPercent := some (if cost > 0 then pnl / cost * 100 else 0)
    openedAt := cp.openedAt
    closedAt := some t.entry_date
    fillsCount := cnt
    exchange := cp.exchange
    fills := fl
    journal := none
    category := none
    positionSizeUsd := none
    currentPrice := none
    liquidationPrice := none
    margin := none
    leverage := none
    funding := none
    unrealizedPnl := none
    unrealizedPnlPercent := none }

/-- The closed `Position` pushed by the close branch (lines 201–233),
including the metadata carry-over from a persisted position matched by
symbol and open-time proximity (lines 222–231). -/
def mkClosed (symbol : String) (existing : List DBPosition) (cp : CurrentPos)
    (cost rev pnl : ℚ) (cnt : Nat) (fl : List Trade) (t : DBTrade) : Position :=
  match existing.find? (fun ex => ex.symbol == symbol && matchOpenedAt ex.opened_at cp.openedAt) with
  | some ex => { mkClosedBase symbol cp cost rev pnl cnt fl t with
                 id := ex.id, journal := jsStrOrNone ex.journal,
                 category := jsStrOrNone ex.category }
  | none => mkClosedBase symbol cp cost rev pnl cnt fl t

/-- The close check of lines 198–238: if `runningQuantity <= 0.0001` the
position is pushed as closed and `currentPosition`/`runningQuantity` are
reset (the other locals keep their stale values, exactly as in the source). -/
def closeCheck (symbol : String) (existing : List DBPosition) (cp : CurrentPos)
    (rq cost rev pnl : ℚ) (cnt : Nat) (fl : List Trade) (t : DBTrade)
    (redq : Option ℚ) : ReplayState × StepInfo :=
  if rq ≤ epsilon then
    ({ current := none, runningQuantity := 0, totalEntryCost := cost,
       totalExitRevenue := rev, realizedPnl := pnl, fillsCount := cnt, fills := fl },
     { emitted := some (mkClosed symbol existing cp cost rev pnl cnt fl t),
       checkQty := rq, reducingQty := redq })
  else
    ({ current := some cp, runningQuantity := rq, totalEntryCost := cost,
       totalExitRevenue := rev, realizedPnl := pnl, fillsCount := cnt, fills := fl },
     { emitted := none, checkQty := rq, reducingQty := redq })

/-- Lines 160–238 for one fill, once `currentPosition` surely exists: push
the fill, classify it against the position side, update the running totals
(the reducing branch prices the whole fill quantity against
`totalEntryCost / runningQuantity`), then run the close check.
`Number(trade.quantity) || 0` and `Number(trade.entry_price) || 0` are
identities on the rational model. -/
def fillBody (symbol : String) (existing : List DBPosition) (cp : CurrentPos)
    (rq cost rev pnl : ℚ) (cnt : Nat) (fl : List Trade) (t : DBTrade) :
    ReplayState × StepInfo :=
  let price := t.entry_price
  let quantity := t.quantity
  let tradeValue := price * quantity
  let fl2 := fl ++ [toFill t]
  let cnt2 := cnt + 1
  if (cp.side = PSide.LONG ∧ t.side = OrderSide.BUY) ∨
     (cp.side = PSide.SHORT ∧ t.side = OrderSide.SELL) then
    closeCheck symbol existing cp (rq + quantity) (cost + tradeValue) rev pnl cnt2 fl2 t none
  else
    let avgEntry := cost / rq
    let pnlAdd := if cp.side = PSide.LONG then (price - avgEntry) * quantity
                  else (avgEntry - price) * quantity
    closeCheck symbol existing cp (rq - quantity) cost (rev + tradeValue)
      (pnl + pnlAdd) cnt2 fl2 t (some rq)

/-- One iteration of the replay loop (lines 128–239): open a fresh position
when flat (resetting every running local), then run the shared body. -/
def processFill (symbol : String) (existing : List DBPosition)
    (st : ReplayState) (t : DBTrade) : ReplayState × StepInfo :=
  match st.current with
  | none => fillBody symbol existing (freshFor symbol t) 0 0 0 0 0 [] t
  | some cp => fillBody symbol existing cp st.runningQuantity st.totalEntryCost
      st.totalExitRevenue st.realizedPnl st.fillsCount st.fills t

/-- The whole loop, also returning the per-iteration instrumentation. -/
def replaySteps (symbol : String) (existing : List DBPosition) :
    ReplayState → List DBTrade → ReplayState × List StepInfo
  | st, [] => (st, [])
  | st, t :: ts =>
      let s1 := processFill symbol existing st t
      let sF := replaySteps symbol existing s1.1 ts
      (sF.1, s1.2 :: sF.2)

/-- The open `Position` object literal of lines 243–259. -/
def mkOpenBase (symbol : String) (cp : CurrentPos) (st : ReplayState) : Position :=
  { id := cp.id
    symbol := symbol
    marketId := cp.marketId
    side := cp.side
    status := Status.open_
    totalQuantity := st.runningQuantity
    avgEntryPrice := calculateWeightedAvgEntry st.fills cp.side
    avgExitPrice := none
    totalEntryCost := st.totalEntryCost
    totalExitRevenue := st.totalExitRevenue
    realizedPnl := st.realizedPnl
    realizedPnlPercent :=
      if st.totalEntryCost > 0
      then some (st.realizedPnl / st.totalEntryCost * 100) else none
    openedAt := cp.openedAt
    closedAt := none
    fillsCount := st.fillsCount
    exchange := cp.exchange
    fills := st.fills
    journal := none
    category := none
    positionSizeUsd := none
    currentPrice := none
    liquidationPrice := none
    margin := none
    leverage := none
    funding := none
    unrealizedPnl := none
    unrealizedPnlPercent := none }

/-- The trailing-open emission (lines 241–273), including the metadata
carry-over from a persisted open position on the same symbol. -/
def finalOpen (symbol : String) (existing : List DBPosition)
    (st : ReplayState) : List Position :=
  match st.current with
  | none => []
  | some cp =>
    if st.runningQuantity > epsilon then
      match existing.find? (fun ex => ex.symbol == symbol && ex.status == Status.open_) with
      | some ex => [{ mkOpenBase symbol cp st with
                      id := ex.id, journal := jsStrOrNone ex.journal,
                      category := jsStrOrNone ex.category }]
      | none => [mkOpenBase symbol cp st]
    else []

/-- The position list produced from a given starting state: the closed
positions emitted inside the loop, then the trailing open position. -/
def calcFrom (symbol : String) (existing : List DBPosition)
    (st : ReplayState) (trades : List DBTrade) : List Position :=
  let r := replaySteps symbol existing st trades
  r.2.filterMap (fun i => i.emitted) ++ finalOpen symbol existing r.1

/-- `calculatePositionsForSymbol` (lines 114–276). -/
def calculatePositionsForSymbol (symbol : String) (trades : List DBTrade)
    (existing : List DBPosition) : List Position :=
  calcFrom symbol existing initState trades

/-! ## Live Reconciler: lighterApi.ts data and positionAggregator.ts merging -/

/-- `LighterPosition` (lighterApi.ts lines 214–226): exactly the declared
fields.  The interface declares `market_index` and `pnl`; optional string
fields are `Option`-valued. -/
structure LighterPosition where
  market_index : Nat
  side : String
  size : String
  entry_price : String
  pnl : String
  mark_price : Option String
  liquidation_price : Option String
  margin : Option String
  leverage : Option String
  funding : Option String
deriving DecidableEq, Repr

/-- JS property read `lp.market_id` on a `LighterPosition`: the interface
declares `market_index`, not `market_id`, so at runtime the access yields
`undefined`. -/
def LighterPosition.market_id (_ : LighterPosition) : Option Nat := none

/-- JS property read `lp.position_value`: not a declared field of
`LighterPosition`, so the access yields `undefined`. -/
def LighterPosition.position_value (_ : LighterPosition) : Option String := none

/-- JS property read `lp.unrealized_pnl`: the interface declares `pnl`, not
`unrealized_pnl`, so the access yields `undefined`. -/
def LighterPosition.unrealized_pnl (_ : LighterPosition) : Option String := none

/-- `MARKET_SYMBOLS` (supabase.ts lines 437–459). -/
def MARKET_SYMBOLS : List (Nat × String) :=
  [(0, "ETH"), (1, "BTC"), (2, "SOL"), (3, "DOGE"), (7, "XRP"), (9, "AVAX"),
   (16, "SUI"), (21, "FARTCOIN"), (24, "HYPE"), (25, "BNB"), (29, "ENA"),
   (32, "SEI"), (39, "ADA"), (45, "PUMP"), (47, "PENGU"), (49, "EIGEN"),
   (58, "BCH"), (71, "XPL"), (83, "ASTER"), (90, "ZEC"), (120, "LIT")]

/-- `getSymbolFromMarketId` (supabase.ts lines 461–463):
`MARKET_SYMBOLS[marketId] || ` followed by the template string
`MKT-${marketId}`.  The argument is `Option`-valued because the caller in
`findLivePositionData` passes `lp.market_id`, which can be `undefined`;
interpolating `undefined` prints the string `undefined`. -/
def getSymbolFromMarketId : Option Nat → String
  | some m =>
      match MARKET_SYMBOLS.lookup m with
      | some s => s
      | none => "MKT-" ++ toString m
  | none => "MKT-undefined"

/-- JS `String.prototype.toUpperCase()`, modelled over the character list
(ASCII uppercasing, all the live feed's `'long'`/`'short'` sides need). -/
def jsToUpper (s : String) : String :=
  String.mk (s.data.map Char.toUpper)

/-- `findLivePositionData` (positionAggregator.ts lines 70–76). -/
def findLivePositionData (position : Position)
    (livePositions : List LighterPosition) : Option LighterPosition :=
  livePositions.find? (fun lp =>
    getSymbolFromMarketId lp.market_id == position.symbol &&
    jsToUpper lp.side == sideStr position.side)

/-- Longest digit prefix of a character list. -/
def digitsPrefix : List Char → List Char × List Char
  | [] => ([], [])
  | c :: cs =>
      if c.isDigit then
        let r := digitsPrefix cs
        (c :: r.1, r.2)
      else ([], c :: cs)

/-- Decimal digits to a natural number. -/
def digitsToNat (ds : List Char) : Nat :=
  ds.foldl (fun a c => a * 10 + (c.toNat - 48)) 0

/-- Unsigned part of the decimal parse: longest digit run, optional
fractional part; `none` (NaN) when no digit at all is read. -/
def parseUnsigned (cs : List Char) : Option ℚ :=
  let ip := digitsPrefix cs
  match ip.2 with
  | '.' :: rest2 =>
      let fp := digitsPrefix rest2
      if ip.1.length = 0 ∧ fp.1.length = 0 then none
      else some ((digitsToNat ip.1 : ℚ) + (digitsToNat fp.1 : ℚ) / (10 ^ fp.1.length : ℚ))
  | _ => if ip.1.length = 0 then none else some (digitsToNat ip.1)

/-- JS `parseFloat` on the decimal strings the live feed documents
(“all numeric fields as decimal strings”): optional sign, then the longest
decimal-number prefix; `none` models NaN.  `parseFloat` never throws — it is
a total function into number-or-NaN, which this model reflects by totality
into `Option ℚ`.  Whitespace skipping and exponents lie outside the
documented live-feed format and are not modelled. -/
def parseFloatOpt (s : String) : Option ℚ :=
  match s.data with
  | '-' :: cs => (parseUnsigned cs).map (fun q => -q)
  | '+' :: cs => parseUnsigned cs
  | cs => parseUnsigned cs

/-- `parseFloat` applied to a possibly-`undefined` string field:
`parseFloat(undefined)` parses the string `"undefined"` and yields NaN. -/
def parseField : Option String → Option ℚ
  | some s => parseFloatOpt s
  | none => none

/-- JS `x || undefined` applied to a parse result: NaN and `0` are falsy. -/
def jsOrNone : Option ℚ → Option ℚ
  | some q => if q = 0 then none else some q
  | none => none

/-- JS `x || d` applied to a parse result: NaN and `0` fall back to `d`. -/
def jsOrD : Option ℚ → ℚ → ℚ
  | some q, d => if q = 0 then d else q
  | none, d => d

/-- `mergeWithLiveData` (positionAggregator.ts lines 81–95), returning the
mutated position.  `position.unrealizedPnl !== undefined && position.margin
&& position.margin > 0` reads the freshly assigned fields. -/
def mergeWithLiveData (position : Position) (liveData : LighterPosition) : Position :=
  let p1 : Position :=
    { position with
      positionSizeUsd := jsOrNone (parseField liveData.position_value)
      currentPrice := jsOrNone (parseField liveData.mark_price)
      liquidationPrice := jsOrNone (parseField liveData.liquidation_price)
      margin := jsOrNone (parseField liveData.margin)
      leverage := jsOrNone (parseField liveData.leverage)
      funding := jsOrNone (parseField liveData.funding)
      unrealizedPnl := jsOrNone (parseField liveData.unrealized_pnl)
      totalQuantity := jsOrD (parseFloatOpt liveData.size) position.totalQuantity }
  match p1.unrealizedPnl, p1.margin with
  | some u, some m =>
      if m > 0 then { p1 with unrealizedPnlPercent := some (u / m * 100) } else p1
  | _, _ => p1

/-! ## Ghost views of the replay state and basic characterisations -/

/-- Overlay fields of a position are all unset (as the Builder emits them;
the Reconciler is the only writer of these fields). -/
def overlaysUnset (p : Position) : Prop :=
  p.positionSizeUsd = none ∧ p.currentPrice = none ∧ p.liquidationPrice = none ∧
  p.margin = none ∧ p.leverage = none ∧ p.funding = none ∧
  p.unrealizedPnl = none ∧ p.unrealizedPnlPercent = none

/-- The fills of the in-progress position, if any. -/
def segFills (st : ReplayState) : List Trade :=
  match st.current with
  | none => []
  | some _ => st.fills

/-- The fill count of the in-progress position, if any. -/
def segCount (st : ReplayState) : Nat :=
  match st.current with
  | none => 0
  | some _ => st.fillsCount

/-- The fills of the position emitted at a step, if any. -/
def emittedFills (i : StepInfo) : List Trade :=
  match i.emitted with
  | none => []
  | some p => p.fills

/-- The fill count of the position emitted at a step, if any. -/
def emittedCount (i : StepInfo) : Nat :=
  match i.emitted with
  | none => 0
  | some p => p.fillsCount

/-- State invariant of the replay loop: either the symbol is flat, or the
in-progress position still holds more than epsilon and its fill counter
agrees with its fill list. -/
def StInv (st : ReplayState) : Prop :=
  st.current = none ∨ (st.runningQuantity > epsilon ∧ st.fillsCount = st.fills.length)

theorem StInv_init : StInv initState := Or.inl rfl

/-- All non-metadata fields of the pushed closed position are those of the
object literal, whichever way the persisted-position match went. -/
theorem mkClosed_fields (symbol : String) (existing : List DBPosition)
    (cp : CurrentPos) (cost rev pnl : ℚ) (cnt : Nat) (fl : List Trade) (t : DBTrade) :
    let p := mkClosed symbol existing cp cost rev pnl cnt fl t
    p.status = Status.closed ∧ p.totalQuantity = 0 ∧ p.fills = fl ∧
    p.fillsCount = cnt ∧ p.side = cp.side ∧ p.totalEntryCost = cost ∧
    p.totalExitRevenue = rev ∧ p.realizedPnl = pnl ∧
    p.avgEntryPrice = calculateWeightedAvgEntry fl cp.side ∧
    p.avgExitPrice = calculateWeightedAvgExit fl cp.side ∧
    p.realizedPnlPercent = some (if cost > 0 then pnl / cost * 100 else 0) ∧
    p.openedAt = cp.openedAt ∧ p.closedAt = some t.entry_date ∧
    overlaysUnset p := by
  unfold mkClosed overlaysUnset
  cases existing.find? (fun ex => ex.symbol == symbol && matchOpenedAt ex.opened_at cp.openedAt) <;>
    simp [mkClosedBase]

theorem mkClosed_status (symbol : String) (existing : List DBPosition)
    (cp : CurrentPos) (cost rev pnl : ℚ) (cnt : Nat) (fl : List Trade) (t : DBTrade) :
    (mkClosed symbol existing cp cost rev pnl cnt fl t).status = Status.closed :=
  (mkClosed_fields symbol existing cp cost rev pnl cnt fl t).1

theorem mkClosed_totalQuantity (symbol : String) (existing : List DBPosition)
    (cp : CurrentPos) (cost rev pnl : ℚ) (cnt : Nat) (fl : List Trade) (t : DBTrade) :
    (mkClosed symbol existing cp cost rev pnl cnt fl t).totalQuantity = 0 :=
  (mkClosed_fields symbol existing cp cost rev pnl cnt fl t).2.1

theorem mkClosed_fills (symbol : String) (existing : List DBPosition)
    (cp : CurrentPos) (cost rev pnl : ℚ) (cnt : Nat) (fl : List Trade) (t : DBTrade) :
    (mkClosed symbol existing cp cost rev pnl cnt fl t).fills = fl :=
  (mkClosed_fields symbol existing cp cost rev pnl cnt fl t).2.2.1

theorem mkClosed_fillsCount (symbol : String) (existing : List DBPosition)
    (cp : CurrentPos) (cost rev pnl : ℚ) (cnt : Nat) (fl : List Trade) (t : DBTrade) :
    (mkClosed symbol existing cp cost rev pnl cnt fl t).fillsCount = cnt :=
  (mkClosed_fields symbol existing cp cost rev pnl cnt fl t).2.2.2.1

theorem mkClosed_overlaysUnset (symbol : String) (existing : List DBPosition)
    (cp : CurrentPos) (cost rev pnl : ℚ) (cnt : Nat) (fl : List Trade) (t : DBTrade) :
    overlaysUnset (mkClosed symbol existing cp cost rev pnl cnt fl t) :=
  (mkClosed_fields symbol existing cp cost rev pnl cnt fl t).2.2.2.2.2.2.2.2.2.2.2.2.2

theorem mkClosed_side (symbol : String) (existing : List DBPosition)
    (cp : CurrentPos) (cost rev pnl : ℚ) (cnt : Nat) (fl : List Trade) (t : DBTrade) :
    (mkClosed symbol existing cp cost rev pnl cnt fl t).side = cp.side :=
  (mkClosed_fields symbol existing cp cost rev pnl cnt fl t).2.2.2.2.1

theorem mkClosed_totalEntryCost (symbol : String) (existing : List DBPosition)
    (cp : CurrentPos) (cost rev pnl : ℚ) (cnt : Nat) (fl : List Trade) (t : DBTrade) :
    (mkClosed symbol existing cp cost rev pnl cnt fl t).totalEntryCost = cost :=
  (mkClosed_fields symbol existing cp cost rev pnl cnt fl t).2.2.2.2.2.1

theorem mkClosed_realizedPnl (symbol : String) (existing : List DBPosition)
    (cp : CurrentPos) (cost rev pnl : ℚ) (cnt : Nat) (fl : List Trade) (t : DBTrade) :
    (mkClosed symbol existing cp cost rev pnl cnt fl t).realizedPnl = pnl :=
  (mkClosed_fields symbol existing cp cost rev pnl cnt fl t).2.2.2.2.2.2.2.1

theorem mkClosed_avgEntryPrice (symbol : String) (existing : List DBPosition)
    (cp : CurrentPos) (cost rev pnl : ℚ) (cnt : Nat) (fl : List Trade) (t : DBTrade) :
    (mkClosed symbol existing cp cost rev pnl cnt fl t).avgEntryPrice =
      calculateWeightedAvgEntry fl cp.side :=
  (mkClosed_fields symbol existing cp cost rev pnl cnt fl t).2.2.2.2.2.2.2.2.1

theorem mkClosed_avgExitPrice (symbol : String) (existing : List DBPosition)
    (cp : CurrentPos) (cost rev pnl : ℚ) (cnt : Nat) (fl : List Trade) (t : DBTrade) :
    (mkClosed symbol existing cp cost rev pnl cnt fl t).avgExitPrice =
      calculateWeightedAvgExit fl cp.side :=
  (mkClosed_fields symbol existing cp cost rev pnl cnt fl t).2.2.2.2.2.2.2.2.2.1

theorem mkClosed_realizedPnlPercent (symbol : String) (existing : List DBPosition)
    (cp : CurrentPos) (cost rev pnl : ℚ) (cnt : Nat) (fl : List Trade) (t : DBTrade) :
    (mkClosed symbol existing cp cost rev pnl cnt fl t).realizedPnlPercent =
      some (if cost > 0 then pnl / cost * 100 else 0) :=
  (mkClosed_fields symbol existing cp cost rev pnl cnt fl t).2.2.2.2.2.2.2.2.2.2.1

theorem mkClosed_openedAt (symbol : String) (existing : List DBPosition)
    (cp : CurrentPos) (cost rev pnl : ℚ) (cnt : Nat) (fl : List Trade) (t : DBTrade) :
    (mkClosed symbol existing cp cost rev pnl cnt fl t).openedAt = cp.openedAt :=
  (mkClosed_fields symbol existing cp cost rev pnl cnt fl t).2.2.2.2.2.2.2.2.2.2.2.1

theorem mkClosed_closedAt (symbol : String) (existing : List DBPosition)
    (cp : CurrentPos) (cost rev pnl : ℚ) (cnt : Nat) (fl : List Trade) (t : DBTrade) :
    (mkClosed symbol existing cp cost rev pnl cnt fl t).closedAt = some t.entry_date :=
  (mkClosed_fields symbol existing cp cost rev pnl cnt fl t).2.2.2.2.2.2.2.2.2.2.2.2.1

theorem closeCheck_le (symbol : String) (existing : List DBPosition) (cp : CurrentPos)
    (rq cost rev pnl : ℚ) (cnt : Nat) (fl : List Trade) (t : DBTrade) (redq : Option ℚ)
    (h : rq ≤ epsilon) :
    closeCheck symbol existing cp rq cost rev pnl cnt fl t redq =
      ({ current := none, runningQuantity := 0, totalEntryCost := cost,
         totalExitRevenue := rev, realizedPnl := pnl, fillsCount := cnt, fills := fl },
       { emitted := some (mkClosed symbol existing cp cost rev pnl cnt fl t),
         checkQty := rq, reducingQty := redq }) := by
  simp [closeCheck, h]

theorem closeCheck_gt (symbol : String) (existing : List DBPosition) (cp : CurrentPos)
    (rq cost rev pnl : ℚ) (cnt : Nat) (fl : List Trade) (t : DBTrade) (redq : Option ℚ)
    (h : ¬ rq ≤ epsilon) :
    closeCheck symbol existing cp rq cost rev pnl cnt fl t redq =
      ({ current := some cp, runningQuantity := rq, totalEntryCost := cost,
         totalExitRevenue := rev, realizedPnl := pnl, fillsCount := cnt, fills := fl },
       { emitted := none, checkQty := rq, reducingQty := redq }) := by
  simp [closeCheck, h]

theorem fillBody_add (symbol : String) (existing : List DBPosition) (cp : CurrentPos)
    (rq cost rev pnl : ℚ) (cnt : Nat) (fl : List Trade) (t : DBTrade)
    (h : (cp.side = PSide.LONG ∧ t.side = OrderSide.BUY) ∨
         (cp.side = PSide.SHORT ∧ t.side = OrderSide.SELL)) :
    fillBody symbol existing cp rq cost rev pnl cnt fl t =
      closeCheck symbol existing cp (rq + t.quantity)
        (cost + t.entry_price * t.quantity) rev pnl (cnt + 1) (fl ++ [toFill t]) t none := by
  simp [fillBody, h]

theorem fillBody_red (symbol : String) (existing : List DBPosition) (cp : CurrentPos)
    (rq cost rev pnl : ℚ) (cnt : Nat) (fl : List Trade) (t : DBTrade)
    (h : ¬ ((cp.side = PSide.LONG ∧ t.side = OrderSide.BUY) ∨
            (cp.side = PSide.SHORT ∧ t.side = OrderSide.SELL))) :
    fillBody symbol existing cp rq cost rev pnl cnt fl t =
      closeCheck symbol existing cp (rq - t.quantity) cost
        (rev + t.entry_price * t.quantity)
        (pnl + (if cp.side = PSide.LONG
                then (t.entry_price - cost / rq) * t.quantity
                else (cost / rq - t.entry_price) * t.quantity))
        (cnt + 1) (fl ++ [toFill t]) t (some rq) := by
  simp [fillBody, h]

theorem processFill_flat (symbol : String) (existing : List DBPosition)
    (st : ReplayState) (t : DBTrade) (h : st.current = none) :
    processFill symbol existing st t =
      fillBody symbol existing (freshFor symbol t) 0 0 0 0 0 [] t := by
  unfold processFill
  rw [h]

theorem processFill_live (symbol : String) (existing : List DBPosition)
    (st : ReplayState) (t : DBTrade) (cp : CurrentPos) (h : st.current = some cp) :
    processFill symbol existing st t =
      fillBody symbol existing cp st.runningQuantity st.totalEntryCost
        st.totalExitRevenue st.realizedPnl st.fillsCount st.fills t := by
  unfold processFill
  rw [h]

/-- A freshly created position always classifies its opening fill as
increasing: its side is defined from the very fill's direction. -/
theorem freshFor_adding (symbol : String) (t : DBTrade) :
    ((freshFor symbol t).side = PSide.LONG ∧ t.side = OrderSide.BUY) ∨
    ((freshFor symbol t).side = PSide.SHORT ∧ t.side = OrderSide.SELL) := by
  cases h : t.side <;> simp [freshFor, h]

/-- One-step soundness of the replay loop: the state invariant is preserved;
in-loop emissions are closed, flat, well-counted positions with no overlay
fields; the close branch runs exactly when the checked quantity is at most
epsilon; the reducing branch only ever divides by a running quantity above
epsilon; and the fill pushed is conserved. -/
theorem processFill_main (symbol : String) (existing : List DBPosition)
    (st : ReplayState) (t : DBTrade) (hInv : StInv st) :
    StInv (processFill symbol existing st t).1
    ∧ (∀ p, (processFill symbol existing st t).2.emitted = some p →
        p.status = Status.closed ∧ p.totalQuantity = 0 ∧
        p.fillsCount = p.fills.length ∧ overlaysUnset p)
    ∧ ((processFill symbol existing st t).2.emitted.isSome ↔
        (processFill symbol existing st t).2.checkQty ≤ epsilon)
    ∧ (∀ q, (processFill symbol existing st t).2.reducingQty = some q → q > epsilon)
    ∧ emittedFills (processFill symbol existing st t).2 ++
        segFills (processFill symbol existing st t).1 = segFills st ++ [toFill t]
    ∧ emittedCount (processFill symbol existing st t).2 +
        segCount (processFill symbol existing st t).1 = segCount st + 1 := by
  cases hc : st.current with
  | none =>
    rw [processFill_flat symbol existing st t hc,
        fillBody_add symbol existing _ _ _ _ _ _ _ _ (freshFor_adding symbol t)]
    by_cases hle : (0 : ℚ) + t.quantity ≤ epsilon
    · rw [closeCheck_le _ _ _ _ _ _ _ _ _ _ _ hle]
      refine ⟨Or.inl rfl, ?_, ?_, ?_, ?_, ?_⟩
      · intro p hp
        have hp2 := Option.some.inj hp
        subst hp2
        refine ⟨mkClosed_status _ _ _ _ _ _ _ _ _,
                mkClosed_totalQuantity _ _ _ _ _ _ _ _ _, ?_,
                mkClosed_overlaysUnset _ _ _ _ _ _ _ _ _⟩
        rw [mkClosed_fillsCount, mkClosed_fills]
        simp
      · simpa using hle
      · intro q hq; simp at hq
      · simp [emittedFills, segFills, hc, mkClosed_fills]
      · simp [emittedCount, segCount, hc, mkClosed_fillsCount]
    · rw [closeCheck_gt _ _ _ _ _ _ _ _ _ _ _ hle]
      refine ⟨Or.inr ⟨lt_of_not_le hle, rfl⟩, ?_, ?_, ?_, ?_, ?_⟩
      · intro p hp; simp at hp
      · simpa using hle
      · intro q hq; simp at hq
      · simp [emittedFills, segFills, hc]
      · simp [emittedCount, segCount, hc]
  | some cp =>
    have hcnt : st.runningQuantity > epsilon ∧ st.fillsCount = st.fills.length := by
      rcases hInv with h | h
      · rw [hc] at h; cases h
      · exact h
    rw [processFill_live symbol existing st t cp hc]
    by_cases hAdd : (cp.side = PSide.LONG ∧ t.side = OrderSide.BUY) ∨
        (cp.side = PSide.SHORT ∧ t.side = OrderSide.SELL)
    · rw [fillBody_add symbol existing _ _ _ _ _ _ _ _ hAdd]
      by_cases hle : st.runningQuantity + t.quantity ≤ epsilon
      · rw [closeCheck_le _ _ _ _ _ _ _ _ _ _ _ hle]
        refine ⟨Or.inl rfl, ?_, ?_, ?_, ?_, ?_⟩
        · intro p hp
          have hp2 := Option.some.inj hp
          subst hp2
          refine ⟨mkClosed_status _ _ _ _ _ _ _ _ _,
                  mkClosed_totalQuantity _ _ _ _ _ _ _ _ _, ?_,
                  mkClosed_overlaysUnset _ _ _ _ _ _ _ _ _⟩
          rw [mkClosed_fillsCount, mkClosed_fills]
          simp [hcnt.2]
        · simpa using hle
        · intro q hq; simp at hq
        · simp [emittedFills, segFills, hc, mkClosed_fills]
        · simp [emittedCount, segCount, hc, mkClosed_fillsCount, hcnt.2]
      · rw [closeCheck_gt _ _ _ _ _ _ _ _ _ _ _ hle]
        refine ⟨Or.inr ⟨lt_of_not_le hle, by simp [hcnt.2]⟩, ?_, ?_, ?_, ?_, ?_⟩
        · intro p hp; simp at hp
        · simpa using hle
        · intro q hq; simp at hq
        · simp [emittedFills, segFills, hc]
        · simp [emittedCount, segCount, hc]
    · rw [fillBody_red symbol existing _ _ _ _ _ _ _ _ hAdd]
      by_cases hle : st.runningQuantity - t.quantity ≤ epsilon
      · rw [closeCheck_le _ _ _ _ _ _ _ _ _ _ _ hle]
        refine ⟨Or.inl rfl, ?_, ?_, ?_, ?_, ?_⟩
        · intro p hp
          have hp2 := Option.some.inj hp
          subst hp2
          refine ⟨mkClosed_status _ _ _ _ _ _ _ _ _,
                  mkClosed_totalQuantity _ _ _ _ _ _ _ _ _, ?_,
                  mkClosed_overlaysUnset _ _ _ _ _ _ _ _ _⟩
          rw [mkClosed_fillsCount, mkClosed_fills]
          simp [hcnt.2]
        · simpa using hle
        · intro q hq
          obtain rfl := Option.some.inj hq
          exact hcnt.1
        · simp [emittedFills, segFills, hc, mkClosed_fills]
        · simp [emittedCount, segCount, hc, mkClosed_fillsCount, hcnt.2]
      · rw [closeCheck_gt _ _ _ _ _ _ _ _ _ _ _ hle]
        refine ⟨Or.inr ⟨lt_of_not_le hle, by simp [hcnt.2]⟩, ?_, ?_, ?_, ?_, ?_⟩
        · intro p hp; simp at hp
        · simpa using hle
        · intro q hq
          obtain rfl := Option.some.inj hq
          exact hcnt.1
        · simp [emittedFills, segFills, hc]
        · simp [emittedCount, segCount, hc]

/-- Soundness of the whole replay loop, by induction from `processFill_main`:
invariant preservation, per-step emission facts, and conservation of the
pushed fills and their count. -/
theorem replay_main (symbol : String) (existing : List DBPosition) :
    ∀ (ts : List DBTrade) (st : ReplayState), StInv st →
    StInv (replaySteps symbol existing st ts).1
    ∧ (∀ i ∈ (replaySteps symbol existing st ts).2, ∀ p, i.emitted = some p →
        p.status = Status.closed ∧ p.totalQuantity = 0 ∧
        p.fillsCount = p.fills.length ∧ overlaysUnset p)
    ∧ (∀ i ∈ (replaySteps symbol existing st ts).2,
        (i.emitted.isSome ↔ i.checkQty ≤ epsilon))
    ∧ (∀ i ∈ (replaySteps symbol existing st ts).2, ∀ q,
        i.reducingQty = some q → q > epsilon)
    ∧ ((replaySteps symbol existing st ts).2.map emittedFills).flatten ++
        segFills (replaySteps symbol existing st ts).1 = segFills st ++ ts.map toFill
    ∧ ((replaySteps symbol existing st ts).2.map emittedCount).sum +
        segCount (replaySteps symbol existing st ts).1 = segCount st + ts.length := by
  intro ts
  induction ts with
  | nil =>
    intro st hInv
    exact ⟨hInv, by simp [replaySteps], by simp [replaySteps], by simp [replaySteps],
           by simp [replaySteps], by simp [replaySteps]⟩
  | cons t ts ih =>
    intro st hInv
    obtain ⟨s1Inv, s1Emit, s1Iff, s1Red, s1Fills, s1Count⟩ :=
      processFill_main symbol existing st t hInv
    obtain ⟨finInv, ihEmit, ihIff, ihRed, ihFills, ihCount⟩ :=
      ih (processFill symbol existing st t).1 s1Inv
    have hrw1 : (replaySteps symbol existing st (t :: ts)).1 =
        (replaySteps symbol existing (processFill symbol existing st t).1 ts).1 := rfl
    have hrw2 : (replaySteps symbol existing st (t :: ts)).2 =
        (processFill symbol existing st t).2 ::
          (replaySteps symbol existing (processFill symbol existing st t).1 ts).2 := rfl
    rw [hrw1, hrw2]
    refine ⟨finInv, ?_, ?_, ?_, ?_, ?_⟩
    · intro i hi
      rcases List.mem_cons.mp hi with h | h
      · subst h; exact s1Emit
      · exact ihEmit i h
    · intro i hi
      rcases List.mem_cons.mp hi with h | h
      · subst h; exact s1Iff
      · exact ihIff i h
    · intro i hi
      rcases List.mem_cons.mp hi with h | h
      · subst h; exact s1Red
      · exact ihRed i h
    · calc ((((processFill symbol existing st t).2 ::
            (replaySteps symbol existing (processFill symbol existing st t).1 ts).2).map
              emittedFills).flatten) ++
          segFills (replaySteps symbol existing (processFill symbol existing st t).1 ts).1
          = emittedFills (processFill symbol existing st t).2 ++
            (((replaySteps symbol existing (processFill symbol existing st t).1 ts).2.map
               emittedFills).flatten ++
             segFills (replaySteps symbol existing (processFill symbol existing st t).1 ts).1) := by
            simp [List.append_assoc]
        _ = emittedFills (processFill symbol existing st t).2 ++
            (segFills (processFill symbol existing st t).1 ++ ts.map toFill) := by rw [ihFills]
        _ = (emittedFills (processFill symbol existing st t).2 ++
             segFills (processFill symbol existing st t).1) ++ ts.map toFill := by
            rw [List.append_assoc]
        _ = (segFills st ++ [toFill t]) ++ ts.map toFill := by rw [s1Fills]
        _ = segFills st ++ (t :: ts).map toFill := by simp
    · have hsum : ((((processFill symbol existing st t).2 ::
            (replaySteps symbol existing (processFill symbol existing st t).1 ts).2).map
              emittedCount).sum) =
          emittedCount (processFill symbol existing st t).2 +
          ((replaySteps symbol existing (processFill symbol existing st t).1 ts).2.map
            emittedCount).sum := by simp
      rw [hsum, List.length_cons]
      omega

theorem finalOpen_flat (symbol : String) (existing : List DBPosition)
    (st : ReplayState) (h : st.current = none) :
    finalOpen symbol existing st = [] := by
  unfold finalOpen
  rw [h]

theorem finalOpen_live (symbol : String) (existing : List DBPosition)
    (st : ReplayState) (cp : CurrentPos) (h : st.current = some cp) :
    finalOpen symbol existing st =
      (if st.runningQuantity > epsilon then
        match existing.find? (fun ex => ex.symbol == symbol && ex.status == Status.open_) with
        | some ex => [{ mkOpenBase symbol cp st with
                        id := ex.id, journal := jsStrOrNone ex.journal,
                        category := jsStrOrNone ex.category }]
        | none => [mkOpenBase symbol cp st]
      else []) := by
  unfold finalOpen
  rw [h]

/-- Every position the trailing-open emission produces is open, holds the
final running quantity (above epsilon), carries the segment fills with an
agreeing count, and has no overlay fields. -/
theorem finalOpen_facts (symbol : String) (existing : List DBPosition)
    (st : ReplayState) (hInv : StInv st) :
    (∀ p ∈ finalOpen symbol existing st, p.status = Status.open_ ∧
        p.totalQuantity = st.runningQuantity ∧ p.totalQuantity > epsilon ∧
        overlaysUnset p)
    ∧ ((finalOpen symbol existing st).map (fun p => p.fills)).flatten = segFills st
    ∧ ((finalOpen symbol existing st).map (fun p => p.fillsCount)).sum = segCount st
    ∧ (finalOpen symbol existing st).length ≤ 1 := by
  cases hc : st.current with
  | none =>
    rw [finalOpen_flat symbol existing st hc]
    simp [segFills, segCount, hc]
  | some cp =>
    have hcnt : st.runningQuantity > epsilon ∧ st.fillsCount = st.fills.length := by
      rcases hInv with h | h
      · rw [hc] at h; cases h
      · exact h
    rw [finalOpen_live symbol existing st cp hc, if_pos hcnt.1]
    cases existing.find? (fun ex => ex.symbol == symbol && ex.status == Status.open_) with
    | none =>
      refine ⟨?_, ?_, ?_, by simp⟩
      · intro p hp
        rw [List.mem_singleton] at hp
        subst hp
        exact ⟨rfl, rfl, hcnt.1, by simp [mkOpenBase, overlaysUnset]⟩
      · simp [mkOpenBase, segFills, hc]
      · simp [mkOpenBase, segCount, hc]
    | some ex =>
      refine ⟨?_, ?_, ?_, by simp⟩
      · intro p hp
        rw [List.mem_singleton] at hp
        subst hp
        exact ⟨rfl, rfl, hcnt.1, by simp [mkOpenBase, overlaysUnset]⟩
      · simp [mkOpenBase, segFills, hc]
      · simp [mkOpenBase, segCount, hc]

/-- The emitted positions of a step list, viewed through `emittedFills`. -/
theorem filterMap_emitted_fills (l : List StepInfo) :
    ((l.filterMap (fun i => i.emitted)).map (fun p => p.fills)).flatten =
      (l.map emittedFills).flatten := by
  induction l with
  | nil => rfl
  | cons i l ih =>
    cases h : i.emitted with
    | none => simp [List.filterMap_cons, h, emittedFills, ih]
    | some p => simp [List.filterMap_cons, h, emittedFills, ih]

/-- The emitted positions of a step list, viewed through `emittedCount`. -/
theorem filterMap_emitted_count (l : List StepInfo) :
    ((l.filterMap (fun i => i.emitted)).map (fun p => p.fillsCount)).sum =
      (l.map emittedCount).sum := by
  induction l with
  | nil => rfl
  | cons i l ih =>
    cases h : i.emitted with
    | none => simp [List.filterMap_cons, h, emittedCount, ih]
    | some p => simp [List.filterMap_cons, h, emittedCount, ih]

/-- On a flat state the loop body ignores every other local (they are all
reset by the opening branch), so a step from any flat state equals a step
from the initial state. -/
theorem processFill_state_flat (symbol : String) (existing : List DBPosition)
    (st : ReplayState) (t : DBTrade) (h : st.current = none) :
    processFill symbol existing st t = processFill symbol existing initState t := by
  rw [processFill_flat symbol existing st t h,
      processFill_flat symbol existing initState t rfl]

/-- Replaying any fill list from a flat state yields the same positions as
replaying it from the initial state: stale locals never leak into output. -/
theorem calcFrom_flat (symbol : String) (existing : List DBPosition)
    (st : ReplayState) (h : st.current = none) (ts : List DBTrade) :
    calcFrom symbol existing st ts = calcFrom symbol existing initState ts := by
  cases ts with
  | nil =>
    simp only [calcFrom, replaySteps]
    rw [finalOpen_flat symbol existing st h, finalOpen_flat symbol existing initState rfl]
  | cons t ts =>
    have h1 : replaySteps symbol existing st (t :: ts) =
        ((replaySteps symbol existing (processFill symbol existing st t).1 ts).1,
         (processFill symbol existing st t).2 ::
           (replaySteps symbol existing (processFill symbol existing st t).1 ts).2) := rfl
    have h2 : replaySteps symbol existing initState (t :: ts) =
        ((replaySteps symbol existing (processFill symbol existing initState t).1 ts).1,
         (processFill symbol existing initState t).2 ::
           (replaySteps symbol existing (processFill symbol existing initState t).1 ts).2) := rfl
    simp only [calcFrom]
    rw [h1, h2, processFill_state_flat symbol existing st t h]

/-! ## Claim theorems -/

/-- Concrete-input helper for examples: a `DBTrade` on the given symbol. -/
def mkTrade (id : String) (symbol : String) (side : OrderSide) (ty : TradeType)
    (price qty : ℚ) (date : Int) : DBTrade :=
  { id := id, symbol := symbol, market_id := 0, type := ty, status := Status.closed,
    side := side, entry_price := price, quantity := qty, entry_date := date,
    exchange := "Lighter" }

/-- C6: for every symbol, the sum of `fillsCount` over all positions the
Builder emits equals the number of input fills, and the concatenation of the
emitted positions' fill lists is exactly the input fill sequence (so every
fill appears in exactly one position, in original chronological order). -/
theorem c6_fill_conservation (symbol : String) (ts : List DBTrade)
    (existing : List DBPosition) :
    ((calculatePositionsForSymbol symbol ts existing).map (fun p => p.fillsCount)).sum
      = ts.length
    ∧ ((calculatePositionsForSymbol symbol ts existing).map (fun p => p.fills)).flatten
      = ts.map toFill := by
  obtain ⟨finInv, -, -, -, hFills, hCount⟩ :=
    replay_main symbol existing ts initState StInv_init
  obtain ⟨-, hoFills, hoCount, -⟩ := finalOpen_facts symbol existing _ finInv
  have hseg : segFills initState = [] := rfl
  have hsegc : segCount initState = 0 := rfl
  rw [hseg] at hFills
  rw [hsegc] at hCount
  simp only [calculatePositionsForSymbol, calcFrom]
  constructor
  · rw [List.map_append, List.sum_append, filterMap_emitted_count, hoCount]
    omega
  · rw [List.map_append, List.flatten_append, filterMap_emitted_fills, hoFills]
    simpa using hFills

/-- Positions split as closed ones before at most one more: `dropLast` is
all-closed and at most one open overall. -/
theorem closed_then_tail (A B : List Position)
    (hA : ∀ p ∈ A, p.status = Status.closed) (hB : B.length ≤ 1) :
    ((A ++ B).dropLast.all (fun p => p.status == Status.closed) = true)
    ∧ (A ++ B).countP (fun p => p.status == Status.open_) ≤ 1 := by
  have hAcount : A.countP (fun p => p.status == Status.open_) = 0 := by
    rw [List.countP_eq_zero]
    intro p hp
    simp [hA p hp]
  constructor
  · rw [List.all_eq_true]
    intro p hp
    rcases B with - | ⟨b, B2⟩
    · rw [List.append_nil] at hp
      have hmem : p ∈ A := (List.dropLast_sublist A).subset hp
      simp [hA p hmem]
    · rcases B2 with - | ⟨c, B3⟩
      · rw [List.dropLast_concat] at hp
        simp [hA p hp]
      · simp at hB
  · rw [List.countP_append, hAcount]
    calc 0 + B.countP (fun p => p.status == Status.open_)
        = B.countP (fun p => p.status == Status.open_) := by omega
      _ ≤ B.length := List.countP_le_length _
      _ ≤ 1 := hB

/-- C7: the Builder's output for a symbol is zero or more closed positions
followed by at most one trailing open position — every non-final position is
closed and at most one open position exists. -/
theorem c7_closed_then_open (symbol : String) (ts : List DBTrade)
    (existing : List DBPosition) :
    ((calculatePositionsForSymbol symbol ts existing).dropLast.all
        (fun p => p.status == Status.closed) = true)
    ∧ (calculatePositionsForSymbol symbol ts existing).countP
        (fun p => p.status == Status.open_) ≤ 1 := by
  obtain ⟨finInv, hEmit, -, -, -, -⟩ :=
    replay_main symbol existing ts initState StInv_init
  obtain ⟨-, -, -, hoLen⟩ := finalOpen_facts symbol existing _ finInv
  simp only [calculatePositionsForSymbol, calcFrom]
  refine closed_then_tail _ _ ?_ hoLen
  intro p hp
  obtain ⟨i, hi, hip⟩ := List.mem_filterMap.mp hp
  exact (hEmit i hi p hip).1

/-- The input refuting C1 as stated: a LONG opened by buy 10@100 is flipped
by sell 15@100; the close check sees running quantity −5. -/
def c1x : List DBTrade :=
  [mkTrade "c1a" "ETH" OrderSide.BUY TradeType.long 100 10 0,
   mkTrade "c1b" "ETH" OrderSide.SELL TradeType.short 100 15 1]

/-- C1, counterexample: it is not true that a position is emitted closed only
when the running quantity after its last fill is within epsilon of zero — on
`c1x` the Builder emits a closed position at running quantity −5. -/
theorem c1_counterexample :
    ¬ (∀ i ∈ (replaySteps "ETH" [] initState c1x).2, ∀ p, i.emitted = some p →
         (p.status = Status.closed ↔ |i.checkQty| ≤ epsilon)) := by
  intro h
  have hmap : (replaySteps "ETH" [] initState c1x).2.map
      (fun i => (i.checkQty, i.emitted.map (fun p => p.status))) =
      [((10 : ℚ), none), ((-5 : ℚ), some Status.closed)] := by
    norm_num +decide [c1x, mkTrade, replaySteps, processFill, fillBody, closeCheck,
      initState, freshFor, epsilon, toFill, jsExchange, mkClosed_status]
  have hm : (((-5 : ℚ), some Status.closed) :
      ℚ × Option Status) ∈ (replaySteps "ETH" [] initState c1x).2.map
        (fun i => (i.checkQty, i.emitted.map (fun p => p.status))) := by
    rw [hmap]
    simp
  obtain ⟨i, hi, hieq⟩ := List.mem_map.mp hm
  have hq : i.checkQty = -5 := congrArg Prod.fst hieq
  have hstat : i.emitted.map (fun p => p.status) = some Status.closed :=
    congrArg Prod.snd hieq
  obtain ⟨p, hp, hps⟩ := Option.map_eq_some'.mp hstat
  have habs := (h i hi p hp).mp hps
  rw [hq] at habs
  norm_num [epsilon] at habs

/-- C1, amended: an in-loop position is emitted (always with status closed
and totalQuantity exactly 0) precisely when the running quantity after its
last fill is ≤ epsilon — in particular whenever it is within epsilon of
zero, but also when a flip drives it below −epsilon; the trailing position,
when emitted, is open with totalQuantity above epsilon; and every emitted
position has totalQuantity ≥ 0. -/
theorem c1_amended (symbol : String) (ts : List DBTrade) (existing : List DBPosition) :
    (∀ i ∈ (replaySteps symbol existing initState ts).2,
        (i.emitted.isSome ↔ i.checkQty ≤ epsilon))
    ∧ (∀ i ∈ (replaySteps symbol existing initState ts).2, ∀ p, i.emitted = some p →
        p.status = Status.closed ∧ p.totalQuantity = 0)
    ∧ (∀ p ∈ finalOpen symbol existing (replaySteps symbol existing initState ts).1,
        p.status = Status.open_ ∧ p.totalQuantity > epsilon)
    ∧ (∀ p ∈ calculatePositionsForSymbol symbol ts existing, 0 ≤ p.totalQuantity) := by
  obtain ⟨finInv, hEmit, hIff, -, -, -⟩ :=
    replay_main symbol existing ts initState StInv_init
  obtain ⟨hoFacts, -, -, -⟩ := finalOpen_facts symbol existing _ finInv
  refine ⟨hIff, fun i hi p hp => ⟨(hEmit i hi p hp).1, (hEmit i hi p hp).2.1⟩,
          fun p hp => ⟨(hoFacts p hp).1, (hoFacts p hp).2.2.1⟩, ?_⟩
  intro p hp
  simp only [calculatePositionsForSymbol, calcFrom] at hp
  rcases List.mem_append.mp hp with h | h
  · obtain ⟨i, hi, hip⟩ := List.mem_filterMap.mp h
    rw [(hEmit i hi p hip).2.1]
  · have h1 := (hoFacts p h).2.2.1
    have heps : (0 : ℚ) < epsilon := by norm_num [epsilon]
    linarith

/-- A single opening fill, for the C1 witness. -/
def c1w : List DBTrade := [mkTrade "c1w" "ETH" OrderSide.BUY TradeType.long 100 10 0]

/-- Witness for C1 (amended) at the concrete input `c1w`. -/
theorem c1_witness :
    0 ≤ ((calculatePositionsForSymbol "ETH" c1w []).head!).totalQuantity := by
  have hne : calculatePositionsForSymbol "ETH" c1w [] ≠ [] := by
    apply List.ne_nil_of_length_pos
    norm_num +decide [calculatePositionsForSymbol, calcFrom, replaySteps, processFill,
      fillBody, closeCheck, initState, freshFor, epsilon, toFill, jsExchange,
      c1w, mkTrade, finalOpen]
  exact (c1_amended "ETH" c1w []).2.2.2 _ (List.head!_mem_self hne)

/-- The Partial-close test fills of the spec: buy 10@100, sell 4@110,
sell 6@90. -/
def c2x : List DBTrade :=
  [mkTrade "c2a" "ETH" OrderSide.BUY TradeType.long 100 10 0,
   mkTrade "c2b" "ETH" OrderSide.SELL TradeType.short 110 4 1,
   mkTrade "c2c" "ETH" OrderSide.SELL TradeType.short 90 6 2]

/-- The first two fills of `c2x`. -/
def c2pre : List DBTrade := c2x.take 2

/-- C2, evaluation at the spec's Partial-close test: after buy 10@100 and
sell 4@110 the position is open with quantity 6 and realized P&L 40 (as the
claim says), but the final sell 6@90 closes it with total realized P&L
−420, not −20: the code never reduces `totalEntryCost` on a partial close,
so the second reduction is priced against 1000/6 instead of 100. -/
theorem c2_partial_close_eval :
    ((calculatePositionsForSymbol "ETH" c2pre []).map
        (fun p => (p.status, p.totalQuantity, p.realizedPnl))
      = [(Status.open_, (6 : ℚ), (40 : ℚ))])
    ∧ ((calculatePositionsForSymbol "ETH" c2x []).map
        (fun p => (p.status, p.totalQuantity, p.realizedPnl))
      = [(Status.closed, (0 : ℚ), (-420 : ℚ))])
    ∧ ((-420 : ℚ) ≠ -20) := by
  refine ⟨?_, ?_, by norm_num⟩ <;>
    norm_num +decide [c2x, c2pre, mkTrade, calculatePositionsForSymbol, calcFrom,
      replaySteps, processFill, fillBody, closeCheck, initState, freshFor, epsilon,
      toFill, jsExchange, finalOpen, mkOpenBase, mkClosed_status,
      mkClosed_totalQuantity, mkClosed_realizedPnl]

/-- Division that refuses a zero denominator, for stating that the source's
guarded divisions never hit one. -/
def divOpt (a b : ℚ) : Option ℚ :=
  if b = 0 then none else some (a / b)

/-- `calculateWeightedAvgEntry` with every division routed through `divOpt`:
the same guards, but a zero denominator would surface as `none`. -/
def calculateWeightedAvgEntryD (fills : List Trade) (side : PSide) : Option ℚ :=
  let entryFills := entryFillsOf fills side
  if entryFills.length = 0 then
    let allEntries := (fills.enum.filter (fun p => p.1 % 2 = 0)).map Prod.snd
    if allEntries.length = 0 then some (jsHeadPrice fills)
    else
      if sumQty allEntries > 0 then divOpt (sumValue allEntries) (sumQty allEntries)
      else some 0
  else
    if sumQty entryFills > 0 then divOpt (sumValue entryFills) (sumQty entryFills)
    else some 0

/-- `calculateWeightedAvgExit` with every division routed through `divOpt`. -/
def calculateWeightedAvgExitD (fills : List Trade) (side : PSide) : Option (Option ℚ) :=
  let exitFills := exitFillsOf fills side
  if exitFills.length = 0 then some none
  else
    if sumQty exitFills > 0 then (divOpt (sumValue exitFills) (sumQty exitFills)).map some
    else some none

/-- C8: no average-price computation divides by zero.  The two weighted-
average helpers guard their denominators (their `divOpt` versions never
return `none` and agree with the total functions), and the one unguarded
division of the reducing branch, `totalEntryCost / runningQuantity`, is only
ever evaluated with `runningQuantity > epsilon`: an opening fill always
classifies as increasing, and a position at or below epsilon closes at once,
so the flat-position reducing-fill case is unreachable. -/
theorem c8_no_division_by_zero :
    (∀ (fills : List Trade) (side : PSide),
       calculateWeightedAvgEntryD fills side = some (calculateWeightedAvgEntry fills side))
    ∧ (∀ (fills : List Trade) (side : PSide),
       calculateWeightedAvgExitD fills side = some (calculateWeightedAvgExit fills side))
    ∧ (∀ (symbol : String) (existing : List DBPosition) (ts : List DBTrade),
       ∀ i ∈ (replaySteps symbol existing initState ts).2, ∀ q,
         i.reducingQty = some q → q > epsilon) := by
  refine ⟨?_, ?_, ?_⟩
  · intro fills side
    simp only [calculateWeightedAvgEntryD, calculateWeightedAvgEntry]
    split_ifs with h1 h2 h3 h4 <;> simp [divOpt, ne_of_gt, *]
  · intro fills side
    simp only [calculateWeightedAvgExitD, calculateWeightedAvgExit]
    split_ifs with h1 h2 <;> simp [divOpt, ne_of_gt, *]
  · intro symbol existing ts
    exact (replay_main symbol existing ts initState StInv_init).2.2.2.1

/-- Fills whose replay passes once through the reducing branch, for the C8
witness: buy 1@10, then sell 1@20 reduces against running quantity 1. -/
def c8w : List DBTrade :=
  [mkTrade "c8a" "ETH" OrderSide.BUY TradeType.long 10 1 0,
   mkTrade "c8b" "ETH" OrderSide.SELL TradeType.short 20 1 1]

/-- Witness for C8 at the concrete input `c8w`: its one reducing-branch
denominator, 1, is above epsilon. -/
theorem c8_witness : (1 : ℚ) > epsilon := by
  have hmap : (replaySteps "ETH" [] initState c8w).2.map (fun i => i.reducingQty)
      = [none, some (1 : ℚ)] := by
    norm_num +decide [c8w, mkTrade, replaySteps, processFill, fillBody, closeCheck,
      initState, freshFor, epsilon, toFill, jsExchange]
  have hm : (some (1 : ℚ)) ∈ (replaySteps "ETH" [] initState c8w).2.map
      (fun i => i.reducingQty) := by
    rw [hmap]
    simp
  obtain ⟨i, hi, hieq⟩ := List.mem_map.mp hm
  exact c8_no_division_by_zero.2.2 "ETH" [] c8w i hi 1 hieq

/-- C9: when a reducing fill exceeds the running quantity (a net flip), the
step closes the current position with totalQuantity exactly 0, credits
realized P&L for the fill's entire quantity against the pre-fill running
average entry, resets to the flat state, and the remaining fills replay
exactly as from scratch — the excess quantity opens no opposite-side
position and appears in no output position's totalQuantity. -/
theorem c9_flip_absorbed (symbol : String) (existing : List DBPosition)
    (st : ReplayState) (cp : CurrentPos) (t : DBTrade)
    (hc : st.current = some cp)
    (hred : ¬ ((cp.side = PSide.LONG ∧ t.side = OrderSide.BUY) ∨
               (cp.side = PSide.SHORT ∧ t.side = OrderSide.SELL)))
    (hflip : st.runningQuantity < t.quantity) :
    ∃ p, (processFill symbol existing st t).2.emitted = some p ∧
      p.status = Status.closed ∧ p.totalQuantity = 0 ∧
      p.realizedPnl = st.realizedPnl +
        (if cp.side = PSide.LONG
         then (t.entry_price - st.totalEntryCost / st.runningQuantity) * t.quantity
         else (st.totalEntryCost / st.runningQuantity - t.entry_price) * t.quantity) ∧
      (processFill symbol existing st t).1.current = none ∧
      (processFill symbol existing st t).1.runningQuantity = 0 ∧
      ∀ rest, calcFrom symbol existing (processFill symbol existing st t).1 rest =
        calculatePositionsForSymbol symbol rest existing := by
  have heps : (0 : ℚ) < epsilon := by norm_num [epsilon]
  have hle : st.runningQuantity - t.quantity ≤ epsilon := by linarith
  rw [processFill_live symbol existing st t cp hc,
      fillBody_red symbol existing _ _ _ _ _ _ _ _ hred,
      closeCheck_le _ _ _ _ _ _ _ _ _ _ _ hle]
  refine ⟨_, rfl, mkClosed_status _ _ _ _ _ _ _ _ _,
          mkClosed_totalQuantity _ _ _ _ _ _ _ _ _,
          mkClosed_realizedPnl _ _ _ _ _ _ _ _ _, rfl, rfl, ?_⟩
  intro rest
  exact calcFrom_flat symbol existing _ rfl rest

/-- The flip state for the C9 witness: LONG 5 after buy 5@100. -/
def c9st : ReplayState :=
  (replaySteps "ETH" [] initState
    [mkTrade "c9a" "ETH" OrderSide.BUY TradeType.long 100 5 0]).1

/-- The flipping fill for the C9 witness: sell 8@120 against a LONG of 5. -/
def c9t : DBTrade := mkTrade "c9b" "ETH" OrderSide.SELL TradeType.short 120 8 1

/-- Witness for C9 at the concrete flip `c9st`/`c9t`: the step resets to the
flat state. -/
theorem c9_witness :
    (processFill "ETH" [] c9st c9t).1.current = none ∧
    (processFill "ETH" [] c9st c9t).1.runningQuantity = 0 := by
  obtain ⟨p, -, -, -, -, hcur, hrq, -⟩ :=
    c9_flip_absorbed "ETH" [] c9st
      (freshFor "ETH" (mkTrade "c9a" "ETH" OrderSide.BUY TradeType.long 100 5 0)) c9t
      (by norm_num +decide [c9st, mkTrade, replaySteps, processFill, fillBody,
            closeCheck, initState, freshFor, epsilon, toFill, jsExchange])
      (by norm_num +decide [c9t, mkTrade, freshFor])
      (by norm_num +decide [c9st, c9t, mkTrade, replaySteps, processFill, fillBody,
            closeCheck, initState, freshFor, epsilon, toFill, jsExchange])
  exact ⟨hcur, hrq⟩

/-- C10: a quantity-0 fill arriving while the symbol is flat produces a
degenerate single-fill closed position: status closed, totalQuantity 0,
totalEntryCost 0, realizedPnl 0, realizedPnlPercent 0, and openedAt equal to
closedAt equal to the fill's timestamp; the state stays flat. -/
theorem c10_degenerate_zero_fill (symbol : String) (existing : List DBPosition)
    (st : ReplayState) (t : DBTrade) (hc : st.current = none)
    (hq : t.quantity = 0) :
    ∃ p, (processFill symbol existing st t).2.emitted = some p ∧
      p.status = Status.closed ∧ p.totalQuantity = 0 ∧ p.totalEntryCost = 0 ∧
      p.realizedPnl = 0 ∧ p.realizedPnlPercent = some 0 ∧
      p.openedAt = t.entry_date ∧ p.closedAt = some t.entry_date ∧
      p.fills = [toFill t] ∧
      (processFill symbol existing st t).1.current = none := by
  have hle : (0 : ℚ) + t.quantity ≤ epsilon := by
    rw [hq]
    norm_num [epsilon]
  rw [processFill_flat symbol existing st t hc,
      fillBody_add symbol existing _ _ _ _ _ _ _ _ (freshFor_adding symbol t),
      closeCheck_le _ _ _ _ _ _ _ _ _ _ _ hle]
  refine ⟨_, rfl, mkClosed_status _ _ _ _ _ _ _ _ _,
          mkClosed_totalQuantity _ _ _ _ _ _ _ _ _, ?_, ?_, ?_, ?_, ?_, ?_, rfl⟩
  · rw [mkClosed_totalEntryCost, hq]
    ring
  · exact mkClosed_realizedPnl _ _ _ _ _ _ _ _ _
  · rw [mkClosed_realizedPnlPercent, hq]
    norm_num
  · rw [mkClosed_openedAt]
    rfl
  · exact mkClosed_closedAt _ _ _ _ _ _ _ _ _
  · rw [mkClosed_fills]
    rfl

/-- The degenerate fill for the C10 witness: buy 0@50 on a flat symbol. -/
def c10t : DBTrade := mkTrade "c10" "ETH" OrderSide.BUY TradeType.long 50 0 7

/-- Witness for C10 at the concrete input `c10t` from the initial state. -/
theorem c10_witness :
    ∃ p, (processFill "ETH" [] initState c10t).2.emitted = some p ∧
      p.status = Status.closed ∧ p.totalQuantity = 0 ∧ p.totalEntryCost = 0 ∧
      p.realizedPnl = 0 ∧ p.realizedPnlPercent = some 0 ∧
      p.openedAt = (7 : Int) ∧ p.closedAt = some (7 : Int) ∧
      p.fills = [toFill c10t] ∧
      (processFill "ETH" [] initState c10t).1.current = none := by
  have h := c10_degenerate_zero_fill "ETH" [] initState c10t rfl rfl
  simpa [c10t, mkTrade] using h

/-- An open LONG ETH position as the Builder would hand to the Reconciler,
for the C4 evaluation. -/
def c4pos : Position :=
  { id := "c4p", symbol := "ETH", marketId := 0, side := PSide.LONG,
    status := Status.open_, totalQuantity := 10, avgEntryPrice := 100,
    avgExitPrice := none, totalEntryCost := 1000, totalExitRevenue := 0,
    realizedPnl := 0, realizedPnlPercent := none, openedAt := 0, closedAt := none,
    fillsCount := 1, exchange := "Lighter", fills := [], journal := none,
    category := none, positionSizeUsd := none, currentPrice := none,
    liquidationPrice := none, margin := none, leverage := none, funding := none,
    unrealizedPnl := none, unrealizedPnlPercent := none }

/-- A live entry of the documented `LighterPosition` shape whose market
index resolves to ETH and whose side matches `c4pos`. -/
def c4live : LighterPosition :=
  { market_index := 0, side := "long", size := "10", entry_price := "100",
    pnl := "5", mark_price := some "101", liquidation_price := none,
    margin := some "50", leverage := none, funding := none }

/-- C4, evaluation at the failing input: the live entry's documented market
identifier (`market_index` 0) resolves to the position's symbol ETH and its
uppercased side matches, so the claim says the Reconciler overlays it — but
`findLivePositionData` reads `lp.market_id`, a field the `LighterPosition`
interface does not declare, so the resolved symbol is the constant
`MKT-undefined` and no overlay ever happens. -/
theorem c4_live_match_never_fires :
    getSymbolFromMarketId (some c4live.market_index) = "ETH"
    ∧ jsToUpper c4live.side = sideStr c4pos.side
    ∧ c4pos.status = Status.open_
    ∧ getSymbolFromMarketId c4live.market_id = "MKT-undefined"
    ∧ findLivePositionData c4pos [c4live] = none := by
  refine ⟨by decide, by decide, rfl, rfl, by decide⟩

/-- C5: parse-failure handling of the Reconciler's merge.  Builder output
always reaches the merge with every overlay field unset (first conjunct), and
on such a position each live numeric field is handled independently: a field
whose string fails to parse keeps its previous value, while every other
field is still processed (a successfully parsed nonzero value is stored).
`parseFloat` itself never throws: it is modelled by the total function
`parseFloatOpt` into number-or-NaN. -/
theorem c5_parse_failure_per_field :
    (∀ (symbol : String) (ts : List DBTrade) (existing : List DBPosition),
      ∀ p ∈ calculatePositionsForSymbol symbol ts existing, overlaysUnset p)
    ∧ (∀ (pos : Position) (ld : LighterPosition), overlaysUnset pos →
      ((parseField ld.position_value = none →
          (mergeWithLiveData pos ld).positionSizeUsd = pos.positionSizeUsd)
       ∧ (∀ v, parseField ld.position_value = some v → v ≠ 0 →
          (mergeWithLiveData pos ld).positionSizeUsd = some v))
      ∧ ((parseField ld.mark_price = none →
          (mergeWithLiveData pos ld).currentPrice = pos.currentPrice)
       ∧ (∀ v, parseField ld.mark_price = some v → v ≠ 0 →
          (mergeWithLiveData pos ld).currentPrice = some v))
      ∧ ((parseField ld.liquidation_price = none →
          (mergeWithLiveData pos ld).liquidationPrice = pos.liquidationPrice)
       ∧ (∀ v, parseField ld.liquidation_price = some v → v ≠ 0 →
          (mergeWithLiveData pos ld).liquidationPrice = some v))
      ∧ ((parseField ld.margin = none →
          (mergeWithLiveData pos ld).margin = pos.margin)
       ∧ (∀ v, parseField ld.margin = some v → v ≠ 0 →
          (mergeWithLiveData pos ld).margin = some v))
      ∧ ((parseField ld.leverage = none →
          (mergeWithLiveData pos ld).leverage = pos.leverage)
       ∧ (∀ v, parseField ld.leverage = some v → v ≠ 0 →
          (mergeWithLiveData pos ld).leverage = some v))
      ∧ ((parseField ld.funding = none →
          (mergeWithLiveData pos ld).funding = pos.funding)
       ∧ (∀ v, parseField ld.funding = some v → v ≠ 0 →
          (mergeWithLiveData pos ld).funding = some v))
      ∧ ((parseField ld.unrealized_pnl = none →
          (mergeWithLiveData pos ld).unrealizedPnl = pos.unrealizedPnl)
       ∧ (∀ v, parseField ld.unrealized_pnl = some v → v ≠ 0 →
          (mergeWithLiveData pos ld).unrealizedPnl = some v))
      ∧ ((parseFloatOpt ld.size = none →
          (mergeWithLiveData pos ld).totalQuantity = pos.totalQuantity)
       ∧ (∀ v, parseFloatOpt ld.size = some v → v ≠ 0 →
          (mergeWithLiveData pos ld).totalQuantity = v))) := by
  constructor
  · intro symbol ts existing p hp
    obtain ⟨finInv, hEmit, -, -, -, -⟩ :=
      replay_main symbol existing ts initState StInv_init
    obtain ⟨hoFacts, -, -, -⟩ := finalOpen_facts symbol existing _ finInv
    simp only [calculatePositionsForSymbol, calcFrom] at hp
    rcases List.mem_append.mp hp with h | h
    · obtain ⟨i, hi, hip⟩ := List.mem_filterMap.mp h
      exact (hEmit i hi p hip).2.2.2
    · exact (hoFacts p h).2.2.2
  · intro pos ld hov
    obtain ⟨h1, h2, h3, h4, h5, h6, h7, h8⟩ := hov
    have hmerge : mergeWithLiveData pos ld =
        { pos with
          positionSizeUsd := jsOrNone (parseField ld.position_value)
          currentPrice := jsOrNone (parseField ld.mark_price)
          liquidationPrice := jsOrNone (parseField ld.liquidation_price)
          margin := jsOrNone (parseField ld.margin)
          leverage := jsOrNone (parseField ld.leverage)
          funding := jsOrNone (parseField ld.funding)
          unrealizedPnl := jsOrNone (parseField ld.unrealized_pnl)
          totalQuantity := jsOrD (parseFloatOpt ld.size) pos.totalQuantity } := by
      unfold mergeWithLiveData
      simp [LighterPosition.unrealized_pnl, parseField, jsOrNone]
    rw [hmerge]
    refine ⟨⟨?_, ?_⟩, ⟨?_, ?_⟩, ⟨?_, ?_⟩, ⟨?_, ?_⟩, ⟨?_, ?_⟩, ⟨?_, ?_⟩, ⟨?_, ?_⟩, ⟨?_, ?_⟩⟩ <;>
      first
        | (intro h; simp only []; rw [h]; simp [jsOrNone, jsOrD, h1, h2, h3, h4, h5, h6, h7])
        | (intro v hv hvne; simp only []; rw [hv]; simp [jsOrNone, jsOrD, hvne])

/-- A fresh open position for the C5 witness. -/
def c5pos : Position :=
  { id := "c5p", symbol := "ETH", marketId := 0, side := PSide.LONG,
    status := Status.open_, totalQuantity := 10, avgEntryPrice := 100,
    avgExitPrice := none, totalEntryCost := 1000, totalExitRevenue := 0,
    realizedPnl := 0, realizedPnlPercent := none, openedAt := 0, closedAt := none,
    fillsCount := 1, exchange := "Lighter", fills := [], journal := none,
    category := none, positionSizeUsd := none, currentPrice := none,
    liquidationPrice := none, margin := none, leverage := none, funding := none,
    unrealizedPnl := none, unrealizedPnlPercent := none }

/-- A live entry mixing malformed (`size`, `liquidation_price`) and
well-formed (`mark_price`) numeric strings, for the C5 witness. -/
def c5live : LighterPosition :=
  { market_index := 0, side := "long", size := "abc", entry_price := "100",
    pnl := "5", mark_price := some "123.5", liquidation_price := some "xyz",
    margin := none, leverage := none, funding := none }

/-- Witness for C5 at `c5pos`/`c5live`: the malformed `size` and
`liquidation_price` keep their previous values while the well-formed
`mark_price` is still parsed and stored. -/
theorem c5_witness :
    (mergeWithLiveData c5pos c5live).totalQuantity = c5pos.totalQuantity
    ∧ (mergeWithLiveData c5pos c5live).liquidationPrice = c5pos.liquidationPrice
    ∧ (mergeWithLiveData c5pos c5live).currentPrice = some ((247 : ℚ) / 2) := by
  have hov : overlaysUnset c5pos := ⟨rfl, rfl, rfl, rfl, rfl, rfl, rfl, rfl⟩
  have h := (c5_parse_failure_per_field).2 c5pos c5live hov
  have hsize : parseFloatOpt c5live.size = none := by decide
  have hliq : parseField c5live.liquidation_price = none := by decide
  have hmark : parseField c5live.mark_price = some ((247 : ℚ) / 2) := by
    norm_num +decide [c5live, parseField, parseFloatOpt, parseUnsigned, digitsPrefix,
      digitsToNat, show ("1").toList = ['1'] from rfl,
      show ('1').toNat = 49 from rfl, show ('2').toNat = 50 from rfl,
      show ('3').toNat = 51 from rfl, show ('5').toNat = 53 from rfl]
  exact ⟨h.2.2.2.2.2.2.2.1 hsize, h.2.2.1.1 hliq,
         h.2.1.2 ((247 : ℚ) / 2) hmark (by norm_num)⟩

/-! ## C3: agreement of the second-pass averages with the running totals -/

/-- The input refuting C3 as stated: fills whose `type` tags disagree with
their BUY/SELL sides.  The replay classifies by side (the buy opens a LONG
and accumulates entry cost 1000), while the second pass classifies by type
(only the sell is tagged `long`), so `avgEntryPrice` is 110, not
`totalEntryCost / 10 = 100`. -/
def c3x : List DBTrade :=
  [mkTrade "c3a" "ETH" OrderSide.BUY TradeType.short 100 10 0,
   mkTrade "c3b" "ETH" OrderSide.SELL TradeType.long 110 10 1]

/-- C3, counterexample: the post-hoc `avgEntryPrice` of a closed position is
not in general the running `totalEntryCost` divided by the increasing-fill
quantity. -/
theorem c3_counterexample :
    ¬ (∀ p ∈ calculatePositionsForSymbol "ETH" c3x [], p.status = Status.closed →
         p.avgEntryPrice = p.totalEntryCost / sumQty (entryFillsOf p.fills p.side)) := by
  intro h
  have hmap : (calculatePositionsForSymbol "ETH" c3x []).map
      (fun p => (p.status, p.avgEntryPrice, p.totalEntryCost,
                 sumQty (entryFillsOf p.fills p.side))) =
      [(Status.closed, (110 : ℚ), (1000 : ℚ), (10 : ℚ))] := by
    norm_num +decide [c3x, mkTrade, calculatePositionsForSymbol, calcFrom, replaySteps,
      processFill, fillBody, closeCheck, initState, freshFor, epsilon, toFill,
      jsExchange, finalOpen, mkClosed_status, mkClosed_totalEntryCost,
      mkClosed_avgEntryPrice, mkClosed_fills, mkClosed_side,
      calculateWeightedAvgEntry, entryFillsOf, exitFillsOf, sumQty, sumValue,
      jsHeadPrice, List.filterMap_cons, List.filterMap_nil, List.map_cons,
      List.map_nil]
  have hm : ((Status.closed, (110 : ℚ), (1000 : ℚ), (10 : ℚ)) :
      Status × ℚ × ℚ × ℚ) ∈ (calculatePositionsForSymbol "ETH" c3x []).map
        (fun p => (p.status, p.avgEntryPrice, p.totalEntryCost,
                   sumQty (entryFillsOf p.fills p.side))) := by
    rw [hmap]
    simp
  obtain ⟨p, hp, hpeq⟩ := List.mem_map.mp hm
  have h1 : p.status = Status.closed := congrArg (fun x => x.1) hpeq
  have h2 : p.avgEntryPrice = 110 := congrArg (fun x => x.2.1) hpeq
  have h3 : p.totalEntryCost = 1000 := congrArg (fun x => x.2.2.1) hpeq
  have h4 : sumQty (entryFillsOf p.fills p.side) = 10 := congrArg (fun x => x.2.2.2) hpeq
  have heq := h p hp h1
  rw [h2, h3, h4] at heq
  norm_num at heq

/-- A fill whose `type` matches the side lands in the entry filter only;
one whose type opposes it lands in the exit filter only. -/
theorem fills_of_type_add (side : PSide) (t : DBTrade)
    (hty : t.side = OrderSide.BUY ↔ t.type = TradeType.long)
    (hAdd : (side = PSide.LONG ∧ t.side = OrderSide.BUY) ∨
            (side = PSide.SHORT ∧ t.side = OrderSide.SELL)) :
    entryFillsOf [toFill t] side = [toFill t] ∧ exitFillsOf [toFill t] side = [] := by
  rcases hAdd with ⟨h1, h2⟩ | ⟨h1, h2⟩ <;> subst h1
  · have h3 : t.type = TradeType.long := hty.mp h2
    simp [entryFillsOf, exitFillsOf, toFill, h3]
  · have h3 : t.type = TradeType.short := by
      cases h4 : t.type with
      | long => rw [hty.mpr h4] at h2; cases h2
      | short => rfl
    simp [entryFillsOf, exitFillsOf, toFill, h3]

/-- The `type`-based classification of a reducing fill. -/
theorem fills_of_type_red (side : PSide) (t : DBTrade)
    (hty : t.side = OrderSide.BUY ↔ t.type = TradeType.long)
    (hRed : ¬ ((side = PSide.LONG ∧ t.side = OrderSide.BUY) ∨
               (side = PSide.SHORT ∧ t.side = OrderSide.SELL))) :
    entryFillsOf [toFill t] side = [] ∧ exitFillsOf [toFill t] side = [toFill t] := by
  cases hs : side with
  | LONG =>
    have h2 : t.side = OrderSide.SELL := by
      cases h4 : t.side with
      | BUY => exact absurd (Or.inl ⟨rfl, h4⟩) (hs ▸ hRed)
      | SELL => rfl
    have h3 : t.type = TradeType.short := by
      cases h4 : t.type with
      | long => rw [hty.mpr h4] at h2; cases h2
      | short => rfl
    simp [entryFillsOf, exitFillsOf, toFill, h3]
  | SHORT =>
    have h2 : t.side = OrderSide.BUY := by
      cases h4 : t.side with
      | BUY => rfl
      | SELL => exact absurd (Or.inr ⟨rfl, h4⟩) (hs ▸ hRed)
    have h3 : t.type = TradeType.long := hty.mp h2
    simp [entryFillsOf, exitFillsOf, toFill, h3]

theorem entryFillsOf_append (fl fl2 : List Trade) (side : PSide) :
    entryFillsOf (fl ++ fl2) side = entryFillsOf fl side ++ entryFillsOf fl2 side := by
  simp [entryFillsOf, List.filter_append]

theorem exitFillsOf_append (fl fl2 : List Trade) (side : PSide) :
    exitFillsOf (fl ++ fl2) side = exitFillsOf fl side ++ exitFillsOf fl2 side := by
  simp [exitFillsOf, List.filter_append]

theorem sumQty_append (fl fl2 : List Trade) :
    sumQty (fl ++ fl2) = sumQty fl + sumQty fl2 := by
  simp [sumQty]

theorem sumValue_append (fl fl2 : List Trade) :
    sumValue (fl ++ fl2) = sumValue fl + sumValue fl2 := by
  simp [sumValue]

theorem sumQty_single (f : Trade) : sumQty [f] = f.quantity := by
  simp [sumQty]

theorem sumValue_single (f : Trade) : sumValue [f] = f.entryPrice * f.quantity := by
  simp [sumValue]

/-- The running accumulators agree with the `type`-based second-pass
classification of the accumulated fills (meaningful when every consumed
fill's type tag matches its BUY/SELL side). -/
def C3Inv (st : ReplayState) : Prop :=
  ∀ cp, st.current = some cp →
    st.totalEntryCost = sumValue (entryFillsOf st.fills cp.side)
    ∧ st.runningQuantity =
        sumQty (entryFillsOf st.fills cp.side) - sumQty (exitFillsOf st.fills cp.side)
    ∧ entryFillsOf st.fills cp.side ≠ []
    ∧ (exitFillsOf st.fills cp.side ≠ [] →
        sumQty (entryFillsOf st.fills cp.side) > epsilon)

theorem C3Inv_init : C3Inv initState := by
  intro cp h
  cases h

/-- What C3 needs of each emitted closed position. -/
def EmitC3 (p : Position) : Prop :=
  p.totalEntryCost = sumValue (entryFillsOf p.fills p.side)
  ∧ entryFillsOf p.fills p.side ≠ []
  ∧ (exitFillsOf p.fills p.side ≠ [] → 0 < sumQty (exitFillsOf p.fills p.side))
  ∧ p.avgEntryPrice = calculateWeightedAvgEntry p.fills p.side
  ∧ p.avgExitPrice = calculateWeightedAvgExit p.fills p.side

/-- One-step preservation of `C3Inv`, and `EmitC3` for the emitted position,
when the consumed fill's type tag is consistent with its BUY/SELL side and
its quantity is non-negative. -/
theorem processFill_c3 (symbol : String) (existing : List DBPosition)
    (st : ReplayState) (t : DBTrade)
    (hty : t.side = OrderSide.BUY ↔ t.type = TradeType.long)
    (hqty : 0 ≤ t.quantity)
    (hInv : StInv st) (hC3 : C3Inv st) :
    C3Inv (processFill symbol existing st t).1
    ∧ (∀ p, (processFill symbol existing st t).2.emitted = some p → EmitC3 p) := by
  cases hc : st.current with
  | none =>
    have hAdd := freshFor_adding symbol t
    obtain ⟨hef, hxf⟩ := fills_of_type_add (freshFor symbol t).side t hty hAdd
    have he2 : entryFillsOf ([] ++ [toFill t]) (freshFor symbol t).side = [toFill t] := by
      simpa using hef
    have hx2 : exitFillsOf ([] ++ [toFill t]) (freshFor symbol t).side = [] := by
      simpa using hxf
    rw [processFill_flat symbol existing st t hc,
        fillBody_add symbol existing _ _ _ _ _ _ _ _ hAdd]
    by_cases hle : (0 : ℚ) + t.quantity ≤ epsilon
    · rw [closeCheck_le _ _ _ _ _ _ _ _ _ _ _ hle]
      constructor
      · intro cp2 h2
        cases h2
      · intro p hp
        have hp2 := Option.some.inj hp
        subst hp2
        refine ⟨?_, ?_, ?_, ?_, ?_⟩
        · rw [mkClosed_totalEntryCost, mkClosed_fills, mkClosed_side, he2, sumValue_single]
          simp [toFill]
        · rw [mkClosed_fills, mkClosed_side, he2]
          simp
        · rw [mkClosed_fills, mkClosed_side, hx2]
          intro hcontra
          exact absurd rfl hcontra
        · rw [mkClosed_avgEntryPrice, mkClosed_fills, mkClosed_side]
        · rw [mkClosed_avgExitPrice, mkClosed_fills, mkClosed_side]
    · rw [closeCheck_gt _ _ _ _ _ _ _ _ _ _ _ hle]
      constructor
      · intro cp2 h2
        obtain rfl := Option.some.inj h2
        refine ⟨?_, ?_, ?_, ?_⟩
        · show (0 : ℚ) + t.entry_price * t.quantity =
            sumValue (entryFillsOf ([] ++ [toFill t]) (freshFor symbol t).side)
          rw [he2, sumValue_single]
          simp [toFill]
        · show (0 : ℚ) + t.quantity =
            sumQty (entryFillsOf ([] ++ [toFill t]) (freshFor symbol t).side) -
            sumQty (exitFillsOf ([] ++ [toFill t]) (freshFor symbol t).side)
          rw [he2, hx2, sumQty_single]
          simp [toFill, sumQty]
        · show entryFillsOf ([] ++ [toFill t]) (freshFor symbol t).side ≠ []
          rw [he2]
          simp
        · show exitFillsOf ([] ++ [toFill t]) (freshFor symbol t).side ≠ [] → _
          rw [hx2]
          intro hcontra
          exact absurd rfl hcontra
      · intro p hp
        cases hp
  | some cp =>
    have hcnt : st.runningQuantity > epsilon := by
      rcases hInv with h | h
      · rw [hc] at h; cases h
      · exact h.1
    obtain ⟨hA, hB, hC, hD⟩ := hC3 cp hc
    rw [processFill_live symbol existing st t cp hc]
    by_cases hAdd : (cp.side = PSide.LONG ∧ t.side = OrderSide.BUY) ∨
        (cp.side = PSide.SHORT ∧ t.side = OrderSide.SELL)
    · obtain ⟨hef, hxf⟩ := fills_of_type_add cp.side t hty hAdd
      have he2 : entryFillsOf (st.fills ++ [toFill t]) cp.side =
          entryFillsOf st.fills cp.side ++ [toFill t] := by
        rw [entryFillsOf_append, hef]
      have hx2 : exitFillsOf (st.fills ++ [toFill t]) cp.side =
          exitFillsOf st.fills cp.side := by
        rw [exitFillsOf_append, hxf, List.append_nil]
      rw [fillBody_add symbol existing _ _ _ _ _ _ _ _ hAdd]
      by_cases hle : st.runningQuantity + t.quantity ≤ epsilon
      · rw [closeCheck_le _ _ _ _ _ _ _ _ _ _ _ hle]
        constructor
        · intro cp2 h2
          cases h2
        · intro p hp
          have hp2 := Option.some.inj hp
          subst hp2
          refine ⟨?_, ?_, ?_, ?_, ?_⟩
          · rw [mkClosed_totalEntryCost, mkClosed_fills, mkClosed_side, he2,
                sumValue_append, sumValue_single, hA]
            simp [toFill]
          · rw [mkClosed_fills, mkClosed_side, he2]
            simp
          · rw [mkClosed_fills, mkClosed_side, hx2]
            intro hne
            have hiq := hD hne
            have heq : sumQty (exitFillsOf st.fills cp.side) =
                sumQty (entryFillsOf st.fills cp.side) - st.runningQuantity := by
              linarith [hB]
            linarith
          · rw [mkClosed_avgEntryPrice, mkClosed_fills, mkClosed_side]
          · rw [mkClosed_avgExitPrice, mkClosed_fills, mkClosed_side]
      · rw [closeCheck_gt _ _ _ _ _ _ _ _ _ _ _ hle]
        constructor
        · intro cp2 h2
          obtain rfl := Option.some.inj h2
          refine ⟨?_, ?_, ?_, ?_⟩
          · show st.totalEntryCost + t.entry_price * t.quantity =
              sumValue (entryFillsOf (st.fills ++ [toFill t]) cp.side)
            rw [he2, sumValue_append, sumValue_single, hA]
            simp [toFill]
          · show st.runningQuantity + t.quantity =
              sumQty (entryFillsOf (st.fills ++ [toFill t]) cp.side) -
              sumQty (exitFillsOf (st.fills ++ [toFill t]) cp.side)
            rw [he2, hx2, sumQty_append, sumQty_single]
            simp [toFill]
            linarith [hB]
          · show entryFillsOf (st.fills ++ [toFill t]) cp.side ≠ []
            rw [he2]
            simp
          · show exitFillsOf (st.fills ++ [toFill t]) cp.side ≠ [] → _
            rw [he2, hx2, sumQty_append, sumQty_single]
            intro hne
            have hiq := hD hne
            simp [toFill]
            linarith
        · intro p hp
          cases hp
    · obtain ⟨hef, hxf⟩ := fills_of_type_red cp.side t hty hAdd
      have he2 : entryFillsOf (st.fills ++ [toFill t]) cp.side =
          entryFillsOf st.fills cp.side := by
        rw [entryFillsOf_append, hef, List.append_nil]
      have hx2 : exitFillsOf (st.fills ++ [toFill t]) cp.side =
          exitFillsOf st.fills cp.side ++ [toFill t] := by
        rw [exitFillsOf_append, hxf]
      have hiq : sumQty (entryFillsOf st.fills cp.side) > epsilon := by
        by_cases hxe : exitFillsOf st.fills cp.side = []
        · have h0 : sumQty (exitFillsOf st.fills cp.side) = 0 := by
            rw [hxe]
            simp [sumQty]
          linarith [hB]
        · exact hD hxe
      rw [fillBody_red symbol existing _ _ _ _ _ _ _ _ hAdd]
      by_cases hle : st.runningQuantity - t.quantity ≤ epsilon
      · rw [closeCheck_le _ _ _ _ _ _ _ _ _ _ _ hle]
        constructor
        · intro cp2 h2
          cases h2
        · intro p hp
          have hp2 := Option.some.inj hp
          subst hp2
          refine ⟨?_, ?_, ?_, ?_, ?_⟩
          · rw [mkClosed_totalEntryCost, mkClosed_fills, mkClosed_side, he2, hA]
          · rw [mkClosed_fills, mkClosed_side, he2]
            exact hC
          · rw [mkClosed_fills, mkClosed_side, hx2, sumQty_append, sumQty_single]
            intro _
            have hq2 : sumQty (exitFillsOf st.fills cp.side) =
                sumQty (entryFillsOf st.fills cp.side) - st.runningQuantity := by
              linarith [hB]
            show (0 : ℚ) < sumQty (exitFillsOf st.fills cp.side) + (toFill t).quantity
            have hqt : (toFill t).quantity = t.quantity := rfl
            linarith
          · rw [mkClosed_avgEntryPrice, mkClosed_fills, mkClosed_side]
          · rw [mkClosed_avgExitPrice, mkClosed_fills, mkClosed_side]
      · rw [closeCheck_gt _ _ _ _ _ _ _ _ _ _ _ hle]
        constructor
        · intro cp2 h2
          obtain rfl := Option.some.inj h2
          refine ⟨?_, ?_, ?_, ?_⟩
          · show st.totalEntryCost =
              sumValue (entryFillsOf (st.fills ++ [toFill t]) cp.side)
            rw [he2, hA]
          · show st.runningQuantity - t.quantity =
              sumQty (entryFillsOf (st.fills ++ [toFill t]) cp.side) -
              sumQty (exitFillsOf (st.fills ++ [toFill t]) cp.side)
            rw [he2, hx2, sumQty_append, sumQty_single]
            have hqt : (toFill t).quantity = t.quantity := rfl
            linarith [hB]
          · show entryFillsOf (st.fills ++ [toFill t]) cp.side ≠ []
            rw [he2]
            exact hC
          · show exitFillsOf (st.fills ++ [toFill t]) cp.side ≠ [] → _
            rw [he2]
            intro _
            exact hiq
        · intro p hp
          cases hp

/-- `EmitC3` for every position the loop emits, for consistently tagged,
non-negative-quantity fills. -/
theorem replay_c3 (symbol : String) (existing : List DBPosition) :
    ∀ (ts : List DBTrade) (st : ReplayState),
    (∀ t ∈ ts, (t.side = OrderSide.BUY ↔ t.type = TradeType.long) ∧ 0 ≤ t.quantity) →
    StInv st → C3Inv st →
    ∀ i ∈ (replaySteps symbol existing st ts).2, ∀ p, i.emitted = some p → EmitC3 p := by
  intro ts
  induction ts with
  | nil =>
    intro st h hInv hC3 i hi
    simp [replaySteps] at hi
  | cons t ts ih =>
    intro st h hInv hC3 i hi
    have hrw2 : (replaySteps symbol existing st (t :: ts)).2 =
        (processFill symbol existing st t).2 ::
          (replaySteps symbol existing (processFill symbol existing st t).1 ts).2 := rfl
    rw [hrw2] at hi
    have hhd := h t (List.mem_cons_self t ts)
    obtain ⟨hstep3, hstepEmit⟩ := processFill_c3 symbol existing st t hhd.1 hhd.2 hInv hC3
    have hInv2 := (processFill_main symbol existing st t hInv).1
    rcases List.mem_cons.mp hi with hh | hh
    · subst hh
      exact hstepEmit
    · exact ih (processFill symbol existing st t).1
        (fun u hu => h u (List.mem_cons_of_mem t hu)) hInv2 hstep3 i hh

/-- Evaluation of `calculateWeightedAvgEntry` when some fill type-matches
the side (the fallback branches are not taken). -/
theorem avgEntry_of_nonempty (fl : List Trade) (side : PSide)
    (h : entryFillsOf fl side ≠ []) :
    calculateWeightedAvgEntry fl side =
      if sumQty (entryFillsOf fl side) > 0
      then sumValue (entryFillsOf fl side) / sumQty (entryFillsOf fl side)
      else 0 := by
  simp only [calculateWeightedAvgEntry]
  rw [if_neg (by simpa [List.length_eq_zero] using h)]

/-- `calculateWeightedAvgExit` is `undefined` when no fill opposes the side. -/
theorem avgExit_of_empty (fl : List Trade) (side : PSide)
    (h : exitFillsOf fl side = []) :
    calculateWeightedAvgExit fl side = none := by
  simp only [calculateWeightedAvgExit]
  rw [if_pos (by simp [h])]

/-- `calculateWeightedAvgExit` on a non-empty opposing set with positive
total quantity. -/
theorem avgExit_of_pos (fl : List Trade) (side : PSide)
    (h1 : exitFillsOf fl side ≠ []) (h2 : 0 < sumQty (exitFillsOf fl side)) :
    calculateWeightedAvgExit fl side =
      some (sumValue (exitFillsOf fl side) / sumQty (exitFillsOf fl side)) := by
  simp only [calculateWeightedAvgExit]
  rw [if_neg (by simpa [List.length_eq_zero] using h1), if_pos h2]

/-- C3 (amended): when every fill's directional `type` tag is consistent
with its BUY/SELL side and quantities are non-negative, the second-pass
derivation agrees with the running accumulation for every closed position:
`avgEntryPrice` equals `totalEntryCost` divided by the increasing-fill
quantity whenever that quantity is positive (and the guard yields 0 when it
is zero), `totalEntryCost` is exactly the value of the increasing fills, and
`avgExitPrice` is the value-weighted average over the reducing fills,
`undefined` precisely when there are none.  (The unamended claim fails when
a fill's type tag disagrees with its side: the replay classifies by side,
the second pass by type.) -/
theorem c3_amended (symbol : String) (ts : List DBTrade) (existing : List DBPosition)
    (hty : ∀ t ∈ ts, (t.side = OrderSide.BUY ↔ t.type = TradeType.long))
    (hqty : ∀ t ∈ ts, 0 ≤ t.quantity) :
    ∀ p ∈ calculatePositionsForSymbol symbol ts existing, p.status = Status.closed →
      (0 < sumQty (entryFillsOf p.fills p.side) →
        p.avgEntryPrice = p.totalEntryCost / sumQty (entryFillsOf p.fills p.side))
      ∧ (sumQty (entryFillsOf p.fills p.side) = 0 → p.avgEntryPrice = 0)
      ∧ p.totalEntryCost = sumValue (entryFillsOf p.fills p.side)
      ∧ (exitFillsOf p.fills p.side = [] → p.avgExitPrice = none)
      ∧ (exitFillsOf p.fills p.side ≠ [] →
          p.avgExitPrice = some (sumValue (exitFillsOf p.fills p.side) /
            sumQty (exitFillsOf p.fills p.side))) := by
  intro p hp hclosed
  obtain ⟨finInv, -, -, -, -, -⟩ := replay_main symbol existing ts initState StInv_init
  obtain ⟨hoFacts, -, -, -⟩ := finalOpen_facts symbol existing _ finInv
  simp only [calculatePositionsForSymbol, calcFrom] at hp
  rcases List.mem_append.mp hp with hmem | hmem
  · obtain ⟨i, hi, hif⟩ := List.mem_filterMap.mp hmem
    have hE : EmitC3 p := replay_c3 symbol existing ts initState
      (fun u hu => ⟨hty u hu, hqty u hu⟩) StInv_init C3Inv_init i hi p hif
    obtain ⟨hA, hC, hX, hAe, hXe⟩ := hE
    refine ⟨?_, ?_, hA, ?_, ?_⟩
    · intro hpos
      rw [hAe, avgEntry_of_nonempty _ _ hC, if_pos hpos, hA]
    · intro hz
      rw [hAe, avgEntry_of_nonempty _ _ hC, if_neg (by rw [hz]; norm_num)]
    · intro hxe
      rw [hXe, avgExit_of_empty _ _ hxe]
    · intro hxne
      rw [hXe, avgExit_of_pos _ _ hxne (hX hxne)]
  · rw [(hoFacts p hmem).1] at hclosed
    cases hclosed

/-- Consistently tagged fills for the C3 witness: buy 10@100 (long) closed
by sell 10@110 (short). -/
def c3w : List DBTrade :=
  [mkTrade "c3w1" "ETH" OrderSide.BUY TradeType.long 100 10 0,
   mkTrade "c3w2" "ETH" OrderSide.SELL TradeType.short 110 10 1]

/-- Witness for C3 (amended) at `c3w`: the closed position's post-hoc
average entry price equals its running entry cost over the increasing
quantity. -/
theorem c3_witness :
    ((calculatePositionsForSymbol "ETH" c3w []).head!).avgEntryPrice =
      ((calculatePositionsForSymbol "ETH" c3w []).head!).totalEntryCost /
        sumQty (entryFillsOf ((calculatePositionsForSymbol "ETH" c3w []).head!).fills
          ((calculatePositionsForSymbol "ETH" c3w []).head!).side) := by
  have hne : calculatePositionsForSymbol "ETH" c3w [] ≠ [] := by
    apply List.ne_nil_of_length_pos
    norm_num +decide [c3w, mkTrade, calculatePositionsForSymbol, calcFrom, replaySteps,
      processFill, fillBody, closeCheck, initState, freshFor, epsilon, toFill,
      jsExchange, finalOpen, List.filterMap_cons, List.filterMap_nil]
  have hclosed : ((calculatePositionsForSymbol "ETH" c3w []).head!).status
      = Status.closed := by
    norm_num +decide [c3w, mkTrade, calculatePositionsForSymbol, calcFrom, replaySteps,
      processFill, fillBody, closeCheck, initState, freshFor, epsilon, toFill,
      jsExchange, finalOpen, mkClosed_status, List.filterMap_cons, List.filterMap_nil]
  have hpos : 0 < sumQty (entryFillsOf
      ((calculatePositionsForSymbol "ETH" c3w []).head!).fills
      ((calculatePositionsForSymbol "ETH" c3w []).head!).side) := by
    norm_num +decide [c3w, mkTrade, calculatePositionsForSymbol, calcFrom, replaySteps,
      processFill, fillBody, closeCheck, initState, freshFor, epsilon, toFill,
      jsExchange, finalOpen, mkClosed_fills, mkClosed_side, entryFillsOf, sumQty,
      List.filterMap_cons, List.filterMap_nil]
  exact (c3_amended "ETH" c3w []
    (by intro t ht; fin_cases ht <;> simp [mkTrade])
    (by intro t ht; fin_cases ht <;> norm_num [mkTrade])
    _ (List.head!_mem_self hne) hclosed).1 hpos

end TradingJournal
